import Mathlib

/-!
TinyTest (`src/tinytest.h`): registry, runner and reporter.

A shallow embedding of the single-header test framework and proofs about it.

Modelling conventions
* A `const char*` argument is a Lean `String` (the characters before the terminating NUL,
  which the program holds as the bytes of their UTF-8 encoding); a global `const char*`
  variable is an `Option String`, `none` being the NULL it holds at program start.
* A C `int` is an `Int`.  The counters only ever count executed tests, and signed
  overflow is undefined in C, so no wrap-around is modelled.
* The chain of `struct tt_test` nodes hanging off `tt_head` is a `List tt_test`
  (`next` is the tail); `malloc` is assumed to succeed.
* A test function is a `TestBody`: the assertion statements it performs (each one an
  expansion of `TT_ASSERT`, with its early `return`) and the helper functions it calls.
* Everything written to standard output, and every call of a test function and of
  `tt_assert`, is appended to `State.trace` in the order in which it happens.
-/

namespace TinyTest

/-- C string contents. -/
abbrev CStr := String

/-- The libc `strcmp` on the characters of two strings: the difference of the first pair
of differing characters, the end of a string counting as NUL, and comparison stopping at
a NUL.  Characters are compared by their code, which orders strings as their bytes do;
the framework only looks at the sign of the result. -/
def strcmp_chars : List Char → List Char → Int
  | [], [] => 0
  | [], b :: _ => 0 - (b.toNat : Int)
  | a :: _, [] => (a.toNat : Int) - 0
  | a :: as, b :: bs =>
    if a.toNat ≠ b.toNat then (a.toNat : Int) - (b.toNat : Int)
    else if a.toNat = 0 then 0
    else strcmp_chars as bs

/-- The libc `strcmp`. -/
def strcmp (a b : CStr) : Int := strcmp_chars a.data b.data

/-- The body of a test function (or of a helper it calls), as far as the framework can
observe it.
* `ret`: the end of the function.
* `TT_ASSERT file line msg expression evaluated rest`: the statement
  `if (!tt_assert(__FILE__, __LINE__, (msg), (#expression), (evaluated) ? 1 : 0)) return;`
  (line 54) followed by `rest`; `evaluated` is the value the asserted expression has.
* `call helper rest`: a call of a `void` helper function with body `helper`, then `rest`. -/
inductive TestBody where
  | ret : TestBody
  | TT_ASSERT (file : CStr) (line : Int) (msg expression : CStr) (evaluated : Int)
      (rest : TestBody) : TestBody
  | call (helper rest : TestBody) : TestBody
  deriving DecidableEq

/-- The node type `struct tt_test` (lines 81-86) without its `next` link. -/
structure tt_test where
  test_function : TestBody
  name : CStr
  suite : CStr
  deriving DecidableEq

/-- What the program does that can be observed from outside, in order of occurrence. -/
inductive Event where
  /-- The call `test_function()` made by `tt_execute` (line 125). -/
  | test_call (name : CStr) (test_function : TestBody) : Event
  /-- An entry into `tt_assert` with these arguments (line 133). -/
  | assert_call (file : CStr) (line : Int) (msg expression : CStr) (pass : Int) : Event
  /-- The `printf` of lines 141-142; the arguments in the order of its `%s:%d: In test %s:`
  then `%s (%s)` conversions. -/
  | print_failure (file : CStr) (line : Int) (test msg expression : Option CStr) : Event
  /-- The `printf` of lines 150-152: `FAILED [%s] (passed:%d, failed:%d, tests:%d)`. -/
  | print_FAILED (name : Option CStr) (passed failed tests : Int) : Event
  /-- The `printf` of lines 156-158: `PASSED [%s] (tests:%d)`. -/
  | print_PASSED (name : Option CStr) (tests : Int) : Event
  deriving DecidableEq

/-- The global variables of lines 72-79 and 88, and the trace. -/
structure State where
  tt_passes : Int
  tt_fails : Int
  tt_current_test_failed : Int
  tt_current_msg : Option CStr
  tt_current_test : Option CStr
  tt_current_expression : Option CStr
  tt_current_file : Option CStr
  tt_current_line : Int
  tt_head : List tt_test
  trace : List Event
  deriving DecidableEq

/-- The state at program start: every global is zero or NULL, nothing has happened. -/
def State.initial : State :=
  { tt_passes := 0, tt_fails := 0, tt_current_test_failed := 0,
    tt_current_msg := none, tt_current_test := none, tt_current_expression := none,
    tt_current_file := none, tt_current_line := 0, tt_head := [], trace := [] }

/-- The scan and relinking of `tt_register` (lines 104-118) on the chain starting at
`after`: nodes whose suite compares below the new one are passed over, and the new node
`node` is linked in before the first other node (or at the end). -/
def tt_register.link (node : tt_test) : List tt_test → List tt_test
  | [] => [node]
  | after :: rest =>
    if strcmp after.suite node.suite < 0 then after :: tt_register.link node rest
    else node :: after :: rest

/-- Lines 97-119. -/
def tt_register (name suite : CStr) (test_function : TestBody) (s : State) : State :=
  let node : tt_test := { test_function := test_function, name := name, suite := suite }
  { s with tt_head := tt_register.link node s.tt_head }

/-- Lines 133-145. -/
def tt_assert (file : CStr) (line : Int) (msg expression : CStr) (pass : Int)
    (s : State) : Int × State :=
  let s0 := { s with trace := s.trace ++ [Event.assert_call file line msg expression pass] }
  let s1 := { s0 with
    tt_current_msg := some msg
    tt_current_expression := some expression
    tt_current_file := some file
    tt_current_line := line
    tt_current_test_failed := if pass = 0 then 1 else 0 }
  let s2 :=
    if pass = 0 then
      { s1 with trace := s1.trace ++
          [Event.print_failure file line s1.tt_current_test s1.tt_current_msg
            s1.tt_current_expression] }
    else s1
  (pass, s2)

/-- Running a function body: the `TT_ASSERT` statement of line 54 returns from the
function it stands in when `tt_assert` returns 0. -/
def TestBody.exec : TestBody → State → State
  | .ret, s => s
  | .TT_ASSERT file line msg expression evaluated rest, s =>
    let r := tt_assert file line msg expression (if evaluated ≠ 0 then 1 else 0) s
    if r.1 = 0 then r.2 else rest.exec r.2
  | .call helper rest, s => rest.exec (helper.exec s)

/-- Lines 121-131. -/
def tt_execute (name : CStr) (test_function : TestBody) (s : State) : State :=
  let s1 := { s with tt_current_test_failed := 0, tt_current_test := some name }
  let s2 := test_function.exec
    { s1 with trace := s1.trace ++ [Event.test_call name test_function] }
  if s2.tt_current_test_failed ≠ 0 then { s2 with tt_fails := s2.tt_fails + 1 }
  else { s2 with tt_passes := s2.tt_passes + 1 }

/-- Lines 147-162. -/
def tt_report (s : State) : Int × State :=
  if s.tt_fails ≠ 0 then
    (-1, { s with
      trace := s.trace ++
        [Event.print_FAILED s.tt_current_file s.tt_passes s.tt_fails (s.tt_passes + s.tt_fails)]
      tt_passes := 0
      tt_fails := 0 })
  else
    (0, { s with
      trace := s.trace ++ [Event.print_PASSED s.tt_current_file s.tt_passes]
      tt_passes := 0
      tt_fails := 0 })

/-- The `for` loop of lines 179-184 from node `t` on, where the argument list is the
chain starting at `t`. -/
def tt_run_all.loop : List tt_test → Int → State → Int × State
  | [], rc, s => (rc, s)
  | t :: rest, rc, s =>
    let s1 := tt_execute t.name t.test_function s
    match rest with
    | [] =>
      let r := tt_report s1
      tt_run_all.loop rest (Int.lor rc r.1) r.2
    | next :: _ =>
      if 0 ≠ strcmp next.suite t.suite then
        let r := tt_report s1
        tt_run_all.loop rest (Int.lor rc r.1) r.2
      else tt_run_all.loop rest rc s1

/-- The `while` loop of lines 186-190: unlink and free the head until none is left. -/
def tt_run_all.drain : List tt_test → List tt_test
  | [] => []
  | _ :: next => tt_run_all.drain next

/-- Lines 175-193. -/
def tt_run_all (s : State) : Int × State :=
  let r := tt_run_all.loop s.tt_head 0 s
  (r.1, { r.2 with tt_head := tt_run_all.drain r.2.tt_head })

/-! ## Vocabulary of the statements -/

/-- A sequence of registrations: one `tt_register` call per entry, in list order (the
constructor functions that `TEST`, lines 90-94, generates run one after the other before
`main`). -/
def register_all (tests : List tt_test) (s : State) : State :=
  tests.foldl (fun acc t => tt_register t.name t.suite t.test_function acc) s

/-- The chain is in non-decreasing suite order under `strcmp`. -/
def suite_sorted (chain : List tt_test) : Prop :=
  chain.Pairwise (fun a b => strcmp a.suite b.suite ≤ 0)

instance (chain : List tt_test) : Decidable (suite_sorted chain) := by
  unfold suite_sorted; exact inferInstance

/-- The test belongs to suite `k`: its suite string equals `k` under `strcmp`, the
comparison the runner uses at line 181. -/
def same_suite (k : CStr) (t : tt_test) : Bool := decide (strcmp t.suite k = 0)

/-- The tests of suite `k` among `tests`, in the order of `tests`. -/
def tests_of (k : CStr) (tests : List tt_test) : List tt_test := tests.filter (same_suite k)

/-- The distinct suites of a list of tests, each at its first occurrence. -/
def suites : List tt_test → List CStr
  | [] => []
  | t :: rest => t.suite :: (suites rest).filter (fun k => decide (strcmp k t.suite ≠ 0))

/-- Stable sorting by suite, ascending under `strcmp`: equal suites keep the order they
have in the input. -/
def stable_sort_by_suite (tests : List tt_test) : List tt_test :=
  tests.insertionSort (fun a b => strcmp a.suite b.suite ≤ 0)

/-- The arguments of a recorded call of a test function. -/
def Event.call? : Event → Option (CStr × TestBody)
  | Event.test_call name f => some (name, f)
  | _ => none

/-- The calls of test functions recorded in a trace, in order. -/
def test_calls (trace : List Event) : List (CStr × TestBody) :=
  trace.filterMap Event.call?

/-- What `tt_execute` is called with for a node (line 180). -/
def tt_test.call (t : tt_test) : CStr × TestBody := (t.name, t.test_function)

/-- The event is produced inside `tt_assert`. -/
def Event.from_body : Event → Bool
  | Event.assert_call .. => true
  | Event.print_failure .. => true
  | _ => false

/-- The failure flag `tt_current_test_failed` as `tt_execute` finds it when the test
function of `t` returns, if the test is started in state `probe`. -/
def failed_at_return (probe : State) (t : tt_test) : Bool :=
  decide ((tt_execute t.name t.test_function probe).tt_current_test_failed ≠ 0)

/-- The maximal runs of neighbouring nodes that line 181 does not separate. -/
def suite_runs : List tt_test → List (List tt_test)
  | [] => []
  | [t] => [[t]]
  | t :: next :: rest =>
    if 0 ≠ strcmp next.suite t.suite then [t] :: suite_runs (next :: rest)
    else
      match suite_runs (next :: rest) with
      | g :: gs => (t :: g) :: gs
      | [] => [[t]]

/-- Calling `tt_execute` on each node of a list in turn. -/
def run_tests (g : List tt_test) (s : State) : State :=
  g.foldl (fun acc t => tt_execute t.name t.test_function acc) s

/-- Executing run after run, with a `tt_report` after each. -/
def run_suites : List (List tt_test) → Int → State → Int × State
  | [], rc, s => (rc, s)
  | g :: gs, rc, s =>
    let r := tt_report (run_tests g s)
    run_suites gs (Int.lor rc r.1) r.2

/-- The states the program can be in between calls of the framework: the state at program
start, and what `tt_register` and `tt_run_all` make of such a state. -/
inductive Reachable : State → Prop where
  | start : Reachable State.initial
  | register (name suite : CStr) (f : TestBody) (s : State) :
      Reachable s → Reachable (tt_register name suite f s)
  | run (s : State) : Reachable s → Reachable (tt_run_all s).2

/-- The trace without what happens inside `tt_assert`: the calls of test functions and
the summary lines. -/
def runner_events (trace : List Event) : List Event :=
  trace.filter (fun e => !e.from_body)

/-- Number of tests in `g` whose failure flag is clear when they return. -/
def passed_count (probe : State) (g : List tt_test) : Int :=
  ((g.filter (fun t => !failed_at_return probe t)).length : Int)

/-- Number of tests in `g` whose failure flag is set when they return. -/
def failed_count (probe : State) (g : List tt_test) : Int :=
  ((g.filter (fun t => failed_at_return probe t)).length : Int)

/-- The summary line `tt_report` prints when `tt_passes` is `p`, `tt_fails` is `f` and
`tt_current_file` is `name`. -/
def summary_event (name : Option CStr) (p f : Int) : Event :=
  if f ≠ 0 then Event.print_FAILED name p f (p + f) else Event.print_PASSED name p

/-- The value of `tt_current_file` after test `t`, given its value before. -/
def file_after_test (t : tt_test) (file : Option CStr) : Option CStr :=
  (tt_execute t.name t.test_function { State.initial with tt_current_file := file }).tt_current_file

/-- The value of `tt_current_file` after the tests `g`, given its value before. -/
def file_after (g : List tt_test) (file : Option CStr) : Option CStr :=
  g.foldl (fun f t => file_after_test t f) file

/-- The calls and summary lines of a run over the suites `groups`, when at the start
`tt_passes` is `p0`, `tt_fails` is `f0` and `tt_current_file` is `file`. -/
def expected_events (probe : State) :
    List (List tt_test) → Int → Int → Option CStr → List Event
  | [], _, _, _ => []
  | g :: gs, p0, f0, file =>
    g.map (fun t => Event.test_call t.name t.test_function)
      ++ summary_event (file_after g file) (p0 + passed_count probe g)
          (f0 + failed_count probe g)
      :: expected_events probe gs 0 0 (file_after g file)

/-- The value `tt_report` returns when the counters hold the tally of the tests `g`. -/
def suite_status (probe : State) (g : List tt_test) : Int :=
  (tt_report { State.initial with
    tt_passes := passed_count probe g, tt_fails := failed_count probe g }).1

/-- The numbers on a summary line. -/
inductive SummaryLine where
  /-- The line `FAILED [..] (passed:%d, failed:%d, tests:%d)` of lines 150-152. -/
  | FAILED (passed failed tests : Int) : SummaryLine
  /-- The line `PASSED [..] (tests:%d)` of lines 156-158. -/
  | PASSED (tests : Int) : SummaryLine
  deriving DecidableEq

/-- The numbers printed by a summary event. -/
def Event.summary? : Event → Option SummaryLine
  | Event.print_FAILED _ p f n => some (SummaryLine.FAILED p f n)
  | Event.print_PASSED _ n => some (SummaryLine.PASSED n)
  | _ => none

/-- The numbers of the summary lines of a trace, in order. -/
def summary_lines (trace : List Event) : List SummaryLine :=
  trace.filterMap Event.summary?

/-- The summary line the tally claims for a suite made of the tests `g`: with `p` tests
passing and `f` failing, `FAILED (passed:p, failed:f, tests:p+f)` if `f` is not zero and
`PASSED (tests:p)` otherwise. -/
def summary_line (probe : State) (g : List tt_test) : SummaryLine :=
  if failed_count probe g ≠ 0 then
    SummaryLine.FAILED (passed_count probe g) (failed_count probe g)
      (passed_count probe g + failed_count probe g)
  else SummaryLine.PASSED (passed_count probe g)

/-- The number of tests a summary line accounts for: passed plus failed, the `PASSED`
line being printed when no test failed. -/
def SummaryLine.tests : SummaryLine → Int
  | SummaryLine.FAILED p f _ => p + f
  | SummaryLine.PASSED n => n

/-- The runner's steps: a test function is called, or a suite is summed up over the
given number of tests. -/
inductive Step where
  | call (name : CStr) (test_function : TestBody) : Step
  | summary (tests : Int) : Step
  deriving DecidableEq

/-- The step an event records: for a summary line, the counters it reads added up. -/
def Event.step? : Event → Option Step
  | Event.test_call name f => some (Step.call name f)
  | Event.print_FAILED _ p f _ => some (Step.summary (p + f))
  | Event.print_PASSED _ p => some (Step.summary p)
  | _ => none

/-- The steps of a trace, in order. -/
def steps (trace : List Event) : List Step :=
  trace.filterMap Event.step?

/-- The name between the brackets of a summary line: the `%s` argument `tt_current_file`
of lines 152 and 158. -/
def Event.summary_name? : Event → Option (Option CStr)
  | Event.print_FAILED name _ _ _ => some name
  | Event.print_PASSED name _ => some name
  | _ => none

/-- The names between the brackets of the summary lines of a trace, in order. -/
def summary_names (trace : List Event) : List (Option CStr) :=
  trace.filterMap Event.summary_name?

/-! ## What `printf` writes -/

/-- The characters `%s` writes for a string: those before its first NUL. -/
def printf_s (s : CStr) : String :=
  String.mk (s.data.takeWhile (fun c => decide (c.toNat ≠ 0)))

/-- The characters `%s` writes for a pointer variable; for NULL, where ISO C leaves the
behaviour undefined, the `(null)` that glibc writes. -/
def printf_ptr : Option CStr → String
  | some s => printf_s s
  | none => "(null)"

/-- The characters `%d` writes. -/
def printf_d (n : Int) : String := toString n

/-- The escape character of line 67. -/
def TT_COLOR_CODE : String := String.singleton (Char.ofNat 0x1B)

/-- Line 68. -/
def TT_COLOR_RED : String := "[1;31m"

/-- Line 69. -/
def TT_COLOR_GREEN : String := "[1;32m"

/-- Line 70. -/
def TT_COLOR_RESET : String := "[0m"

/-- The text a `printf` call writes, following its format string (lines 141, 150 and
156); nothing for the events that are not output. -/
def Event.printed? : Event → Option String
  | Event.print_failure file line test msg expression =>
    some (printf_s file ++ ":" ++ printf_d line ++ ": In test " ++ printf_ptr test
      ++ ":\n    " ++ printf_ptr msg ++ " (" ++ printf_ptr expression ++ ")\n")
  | Event.print_FAILED name p f n =>
    some (TT_COLOR_CODE ++ TT_COLOR_RED ++ "FAILED" ++ TT_COLOR_CODE ++ TT_COLOR_RESET
      ++ " [" ++ printf_ptr name ++ "] (passed:" ++ printf_d p ++ ", failed:" ++ printf_d f
      ++ ", tests:" ++ printf_d n ++ ")\n")
  | Event.print_PASSED name n =>
    some (TT_COLOR_CODE ++ TT_COLOR_GREEN ++ "PASSED" ++ TT_COLOR_CODE ++ TT_COLOR_RESET
      ++ " [" ++ printf_ptr name ++ "] (tests:" ++ printf_d n ++ ")\n")
  | _ => none

/-- Standard output: the texts written, one entry per `printf` call, in order. -/
def output (trace : List Event) : List String :=
  trace.filterMap Event.printed?

/-- The diagnostic line for a failing assertion in test `test`:
`<file>:<line>: In test <test>:`, a line break, four blanks, `<msg> (<expression>)` and a
line break. -/
def diagnostic_line (file : CStr) (line : Int) (test msg expression : CStr) : String :=
  printf_s file ++ ":" ++ printf_d line ++ ": In test " ++ printf_s test
    ++ ":\n    " ++ printf_s msg ++ " (" ++ printf_s expression ++ ")\n"

/-- The diagnostic line a recorded `tt_assert` call must produce in test `test`: one
line if its `pass` argument is 0, none otherwise. -/
def Event.diagnostic? (test : CStr) : Event → Option String
  | Event.assert_call file line msg expression pass =>
    if pass = 0 then some (diagnostic_line file line test msg expression) else none
  | _ => none

/-- The `pass` argument of a recorded `tt_assert` call. -/
def Event.pass? : Event → Option Int
  | Event.assert_call _ _ _ _ pass => some pass
  | _ => none

/-- The `pass` arguments of the `tt_assert` calls recorded in a trace, in order. -/
def pass_values (trace : List Event) : List Int :=
  trace.filterMap Event.pass?

/-- The failure flag after `tt_assert` calls with the given `pass` arguments, `flag`
being its value before them. -/
def flag_after (passes : List Int) (flag : Int) : Int :=
  match passes.getLast? with
  | some pass => if pass = 0 then 1 else 0
  | none => flag

/-- The test of line 105 on node `n` for a new node `t`: the scan moves past `n`. -/
def scans_past (t n : tt_test) : Bool := decide (strcmp n.suite t.suite < 0)

/-- A test that fails an assertion inside a helper function and then passes one of its
own. -/
def test_helper : tt_test :=
  { name := "test_helper", suite := "S1",
    test_function :=
      .call (.TT_ASSERT "S1" 20 "in helper" "0" 0 .ret)
        (.TT_ASSERT "S1" 30 "after helper" "1" 1 .ret) }

/-! ## Assertion statements -/

/-- What a statement hands to `TT_ASSERT` (line 54): its three arguments, and `__FILE__`
and `__LINE__` at the statement. -/
structure TT_ASSERT_use where
  file : CStr
  line : Int
  msg : CStr
  expression : CStr
  evaluated : Int
  deriving DecidableEq

/-- The value an `int` variable takes when it is initialised with an integer of value
`v` (line 63, `int a = (actual), e = (expected)`): `v` itself when it fits the 32 bits of
an `int`, and `v` reduced modulo 2^32 into that range otherwise, which is how gcc and
clang define the conversion. -/
def to_int (v : Int) : Int := (v + 2 ^ 31) % 2 ^ 32 - 2 ^ 31

/-- The number of bytes a character takes in a C string (UTF-8). -/
def char_bytes (c : Char) : Nat :=
  if c.toNat < 0x80 then 1 else if c.toNat < 0x800 then 2 else if c.toNat < 0x10000 then 3
  else 4

/-- What `vsnprintf` writes for a stretch of its format that is meant as plain text: the
characters themselves, `%%` giving one `%`.  Any other `%` starts a conversion that takes
an argument the call of line 63 does not supply in that place; the behaviour is then
undefined and there is no result. -/
def format_text : List Char → Option (List Char)
  | [] => some []
  | c :: rest =>
    if c = '%' then
      match rest with
      | d :: rest2 =>
        if d = '%' then (format_text rest2).map (fun t => '%' :: t) else none
      | [] => none
    else (format_text rest).map (fun t => c :: t)

/-- What fits a buffer with room for `n` more bytes: the characters are kept as long as
their bytes fit.  When the buffer ends inside a character, what it holds is not a string
of characters and there is no result. -/
def cut_bytes : Nat → List Char → Option (List Char)
  | _, [] => some []
  | n, c :: rest =>
    if char_bytes c ≤ n then (cut_bytes (n - char_bytes c) rest).map (fun t => c :: t)
    else if n = 0 then some []
    else none

/-- The string `tt_to_str` (lines 164-173) returns for its one call, line 63:
`vsnprintf` into the 256 bytes of `buf` with the format
`#actual " is %d, expected %s, which is %d"` and the arguments `a`, `#expected`, `e`.
The text `actual` is part of the format; the result is cut to the 255 bytes that fit
before the terminating NUL. -/
def tt_to_str (actual : CStr) (a : Int) (expected : CStr) (e : Int) : Option CStr :=
  (format_text actual.data).bind (fun t =>
    (cut_bytes 255
      (t ++ (" is " ++ printf_d a ++ ", expected " ++ printf_s expected
        ++ ", which is " ++ printf_d e).data)).map String.mk)

/-- An assertion statement in one of the four forms of lines 55-63, with what the
compiler and the run supply for it.
* `expression`, in every form, is the string that `#expression` yields in `TT_ASSERT`.
* `ASSERT`: `msg` is the value of the message argument, `value` the value of the asserted
  expression.
* `ASSERT_EQUALS`: `actual` is the string `#actual`, `equal` the value of the comparison
  `(expected) == (actual)`.
* `ASSERT_STRING_EQUALS`: `msg` is the string `(actual)` points to where it is passed as
  the message, `expected_value` and `actual_value` are the strings handed to `strcmp`.
* `ASSERT_INT_EQUALS`: `expected` and `actual` are the strings `#expected` and `#actual`,
  `expected_value` and `actual_value` the integer values the two operands have where
  line 63 evaluates them, in the initialisers of `a` and `e`. -/
inductive Assertion where
  | ASSERT (file : CStr) (line : Int) (msg expression : CStr) (value : Int) : Assertion
  | ASSERT_EQUALS (file : CStr) (line : Int) (actual expression : CStr) (equal : Int) :
      Assertion
  | ASSERT_STRING_EQUALS (file : CStr) (line : Int) (msg expression : CStr)
      (expected_value actual_value : CStr) : Assertion
  | ASSERT_INT_EQUALS (file : CStr) (line : Int) (expected actual expression : CStr)
      (expected_value actual_value : Int) : Assertion
  deriving DecidableEq

/-- The expansion of each form down to `TT_ASSERT`; none when evaluating the arguments
has no defined result. -/
def Assertion.expand : Assertion → Option TT_ASSERT_use
  | .ASSERT file line msg expression value =>
    -- line 55: TT_ASSERT(msg, expression, (expression))
    some { file := file, line := line, msg := msg, expression := expression,
           evaluated := value }
  | .ASSERT_EQUALS file line actual expression equal =>
    -- line 59: ASSERT((#actual), (expected) == (actual))
    some { file := file, line := line, msg := actual, expression := expression,
           evaluated := equal }
  | .ASSERT_STRING_EQUALS file line msg expression expected_value actual_value =>
    -- line 61: ASSERT((actual), strcmp((expected),(actual)) == 0)
    some { file := file, line := line, msg := msg, expression := expression,
           evaluated := if strcmp expected_value actual_value = 0 then 1 else 0 }
  | .ASSERT_INT_EQUALS file line expected actual expression expected_value actual_value =>
    -- line 63: int a = (actual), e = (expected);
    --          TT_ASSERT(tt_to_str(..., a, #expected, e), expected == actual, a == e)
    (tt_to_str actual (to_int actual_value) expected (to_int expected_value)).map
      (fun msg =>
        { file := file, line := line, msg := msg, expression := expression,
          evaluated := if to_int actual_value = to_int expected_value then 1 else 0 })

/-- The call of `tt_assert` that evaluating the statement makes. -/
def Assertion.call? (a : Assertion) : Option Event :=
  a.expand.map (fun u =>
    Event.assert_call u.file u.line u.msg u.expression (if u.evaluated ≠ 0 then 1 else 0))

/-- A test of suite `S1` whose only assertion holds. -/
def test_a : tt_test :=
  { name := "test_a", suite := "S1",
    test_function := .TT_ASSERT "S1" 3 "2+2 is 4" "2+2==4" 1 .ret }

/-- A test of suite `S1` whose first assertion fails. -/
def test_b : tt_test :=
  { name := "test_b", suite := "S1",
    test_function :=
      .TT_ASSERT "S1" 8 "2+2 is 5" "2+2==5" 0 (.TT_ASSERT "S1" 9 "1 is 1" "1==1" 1 .ret) }

/-- A passing test of suite `S2`. -/
def test_c : tt_test :=
  { name := "test_c", suite := "S2",
    test_function := .TT_ASSERT "S2" 3 "1 is 1" "1==1" 1 .ret }

/-- A test of suite `a.c` whose only assertion sits in another file. -/
def test_elsewhere : tt_test :=
  { name := "test_elsewhere", suite := "a.c",
    test_function := .TT_ASSERT "helper.h" 12 "ok" "1" 1 .ret }

/-- A test of suite `b.c` that makes no assertion. -/
def test_empty : tt_test :=
  { name := "test_empty", suite := "b.c", test_function := .ret }

/-! ## Bitwise or with the two values `tt_report` returns -/

theorem int_lor_zero (a : Int) : Int.lor a 0 = a := by
  cases a with
  | ofNat m => show ((m ||| 0 : Nat) : Int) = m; simp
  | negSucc m =>
    show Int.negSucc (Nat.ldiff m 0) = Int.negSucc m
    congr 1
    apply Nat.eq_of_testBit_eq
    intro i
    simp [Nat.testBit_ldiff]

theorem int_lor_neg_one (a : Int) : Int.lor a (-1) = -1 := by
  cases a with
  | ofNat m =>
    show Int.negSucc (Nat.ldiff 0 m) = Int.negSucc 0
    congr 1
    apply Nat.eq_of_testBit_eq
    intro i
    simp [Nat.testBit_ldiff]
  | negSucc m =>
    show Int.negSucc (m &&& 0) = Int.negSucc 0
    simp

/-! ## `strcmp` is a total preorder -/

theorem strcmp_chars_swap (a b : List Char) : strcmp_chars b a = - strcmp_chars a b := by
  induction a generalizing b with
  | nil => cases b <;> simp [strcmp_chars]
  | cons x xs ih =>
    cases b with
    | nil => simp [strcmp_chars]
    | cons y ys =>
      simp only [strcmp_chars]
      split_ifs <;> first | omega | exact ih ys

theorem strcmp_chars_le_trans (a b c : List Char)
    (hab : strcmp_chars a b ≤ 0) (hbc : strcmp_chars b c ≤ 0) : strcmp_chars a c ≤ 0 := by
  induction a generalizing b c with
  | nil => cases c <;> simp [strcmp_chars]
  | cons x xs ih =>
    cases b with
    | nil =>
      cases c with
      | nil => simpa [strcmp_chars] using hab
      | cons z zs =>
        simp only [strcmp_chars] at hab hbc ⊢
        split_ifs <;> omega
    | cons y ys =>
      cases c with
      | nil =>
        simp only [strcmp_chars] at hab hbc ⊢
        split_ifs at hab <;> omega
      | cons z zs =>
        simp only [strcmp_chars] at hab hbc ⊢
        split_ifs at hab hbc ⊢ <;> first | omega | exact ih ys zs hab hbc

theorem strcmp_chars_congr (a b c : List Char)
    (hab : strcmp_chars a b = 0) : strcmp_chars a c = strcmp_chars b c := by
  induction a generalizing b c with
  | nil =>
    cases b with
    | nil => rfl
    | cons y ys =>
      cases c with
      | nil => simp only [strcmp_chars] at hab ⊢; omega
      | cons z zs =>
        simp only [strcmp_chars] at hab ⊢
        split_ifs <;> omega
  | cons x xs ih =>
    cases b with
    | nil =>
      cases c with
      | nil => simp only [strcmp_chars] at hab ⊢; omega
      | cons z zs =>
        simp only [strcmp_chars] at hab ⊢
        split_ifs <;> omega
    | cons y ys =>
      cases c with
      | nil =>
        simp only [strcmp_chars] at hab ⊢
        split_ifs at hab <;> omega
      | cons z zs =>
        simp only [strcmp_chars] at hab ⊢
        split_ifs at hab ⊢ <;> first | omega | exact ih ys zs hab

theorem strcmp_swap (a b : CStr) : strcmp b a = - strcmp a b :=
  strcmp_chars_swap a.data b.data

theorem strcmp_self (a : CStr) : strcmp a a = 0 := by
  have h := strcmp_swap a a
  omega

theorem strcmp_le_trans {a b c : CStr} (hab : strcmp a b ≤ 0) (hbc : strcmp b c ≤ 0) :
    strcmp a c ≤ 0 :=
  strcmp_chars_le_trans a.data b.data c.data hab hbc

theorem strcmp_congr_left {a b : CStr} (c : CStr) (hab : strcmp a b = 0) :
    strcmp a c = strcmp b c :=
  strcmp_chars_congr a.data b.data c.data hab

theorem strcmp_congr_right {a b : CStr} (c : CStr) (hab : strcmp a b = 0) :
    strcmp c a = strcmp c b := by
  have h1 := strcmp_swap a c
  have h2 := strcmp_swap b c
  have h3 := strcmp_congr_left c hab
  omega

theorem strcmp_lt_of_lt_of_le {a b c : CStr} (hab : strcmp a b < 0) (hbc : strcmp b c ≤ 0) :
    strcmp a c < 0 := by
  by_contra hn
  have hca : strcmp c a ≤ 0 := by have := strcmp_swap a c; omega
  have hba := strcmp_le_trans hbc hca
  have := strcmp_swap a b
  omega

/-! ## The registry -/

theorem mem_link (node x : tt_test) (chain : List tt_test) :
    x ∈ tt_register.link node chain ↔ x = node ∨ x ∈ chain := by
  induction chain with
  | nil => simp [tt_register.link]
  | cons a l ih =>
    simp only [tt_register.link]
    split_ifs
    · simp only [List.mem_cons, ih]; tauto
    · simp only [List.mem_cons]

theorem link_sorted (node : tt_test) (chain : List tt_test) (h : suite_sorted chain) :
    suite_sorted (tt_register.link node chain) := by
  unfold suite_sorted at h ⊢
  induction chain with
  | nil => simp [tt_register.link]
  | cons a l ih =>
    rw [List.pairwise_cons] at h
    simp only [tt_register.link]
    split_ifs with hlt
    · rw [List.pairwise_cons]
      refine ⟨?_, ih h.2⟩
      intro x hx
      rcases (mem_link node x l).1 hx with rfl | hx
      · omega
      · exact h.1 x hx
    · have hna : strcmp node.suite a.suite ≤ 0 := by
        have := strcmp_swap node.suite a.suite
        omega
      rw [List.pairwise_cons, List.pairwise_cons]
      refine ⟨?_, h⟩
      intro x hx
      rcases List.mem_cons.1 hx with rfl | hx
      · exact hna
      · exact strcmp_le_trans hna (h.1 x hx)

theorem link_eq_orderedInsert (node : tt_test) (chain : List tt_test) :
    tt_register.link node chain
      = chain.orderedInsert (fun a b => strcmp a.suite b.suite ≤ 0) node := by
  induction chain with
  | nil => rfl
  | cons a l ih =>
    simp only [tt_register.link, List.orderedInsert]
    have := strcmp_swap node.suite a.suite
    split_ifs <;> first | omega | rfl | (rw [ih])

theorem register_all_head (tests : List tt_test) (s : State) :
    (register_all tests s).tt_head
      = tests.foldl (fun chain t => tt_register.link t chain) s.tt_head := by
  induction tests generalizing s with
  | nil => rfl
  | cons t ts ih =>
    simp only [register_all, List.foldl_cons] at ih ⊢
    rw [ih]
    rfl

theorem foldl_link_sorted (tests chain : List tt_test) (h : suite_sorted chain) :
    suite_sorted (tests.foldl (fun chain t => tt_register.link t chain) chain) := by
  induction tests generalizing chain with
  | nil => exact h
  | cons t ts ih => exact ih _ (link_sorted t chain h)

theorem register_all_sorted (tests : List tt_test) (s : State) (h : s.tt_head = []) :
    suite_sorted (register_all tests s).tt_head := by
  rw [register_all_head, h]
  exact foldl_link_sorted tests [] List.Pairwise.nil

theorem foldl_link_eq_sort (tests chain : List tt_test) :
    tests.foldl (fun chain t => tt_register.link t chain) chain
      = tests.reverse.foldr (fun t chain => tt_register.link t chain) chain := by
  rw [List.foldr_reverse]

theorem foldr_link_nil (tests : List tt_test) :
    tests.foldr (fun t chain => tt_register.link t chain) [] = stable_sort_by_suite tests := by
  induction tests with
  | nil => rfl
  | cons t ts ih =>
    simp only [List.foldr_cons, ih, stable_sort_by_suite, List.insertionSort]
    exact link_eq_orderedInsert _ _

theorem register_all_eq_sort (tests : List tt_test) (s : State) (h : s.tt_head = []) :
    (register_all tests s).tt_head = stable_sort_by_suite tests.reverse := by
  rw [register_all_head, h, foldl_link_eq_sort, foldr_link_nil]

theorem same_suite_congr {k : CStr} {a b : tt_test} (h : strcmp a.suite b.suite = 0) :
    same_suite k a = same_suite k b := by
  unfold same_suite
  rw [strcmp_congr_left k h]

theorem tests_of_link (k : CStr) (node : tt_test) (chain : List tt_test) :
    tests_of k (tt_register.link node chain)
      = if same_suite k node then node :: tests_of k chain else tests_of k chain := by
  induction chain with
  | nil =>
    cases hk : same_suite k node <;> simp [tt_register.link, tests_of, List.filter, hk]
  | cons a l ih =>
    simp only [tt_register.link]
    cases hk : same_suite k node
    · simp only [hk, Bool.false_eq_true, if_false] at ih ⊢
      by_cases hlt : strcmp a.suite node.suite < 0
      · simp only [hlt, if_true]
        simp only [tests_of, List.filter_cons] at ih ⊢
        rw [ih]
      · simp [hlt, tests_of, List.filter_cons, hk]
    · simp only [hk, if_true] at ih ⊢
      by_cases hlt : strcmp a.suite node.suite < 0
      · have hak : same_suite k a = false := by
          have hnk : strcmp node.suite k = 0 := by simpa [same_suite] using hk
          have := strcmp_congr_right a.suite hnk
          simp only [same_suite, decide_eq_false_iff_not]
          omega
        simp only [hlt, if_true]
        simp only [tests_of, List.filter_cons, hak] at ih ⊢
        simpa using ih
      · simp [hlt, tests_of, List.filter_cons, hk]

theorem tests_of_foldl_link (k : CStr) (tests chain : List tt_test) :
    tests_of k (tests.foldl (fun chain t => tt_register.link t chain) chain)
      = (tests_of k tests).reverse ++ tests_of k chain := by
  induction tests generalizing chain with
  | nil => simp [tests_of]
  | cons t ts ih =>
    rw [List.foldl_cons, ih, tests_of_link]
    by_cases hk : same_suite k t
    · simp [tests_of, List.filter_cons, hk]
    · simp [tests_of, List.filter_cons, hk]

/-! ## Assertions and test bodies -/

theorem tt_assert_fst (file : CStr) (line : Int) (msg expression : CStr) (pass : Int)
    (s : State) : (tt_assert file line msg expression pass s).1 = pass := rfl

theorem tt_assert_flag (file : CStr) (line : Int) (msg expression : CStr) (pass : Int)
    (s : State) :
    (tt_assert file line msg expression pass s).2.tt_current_test_failed
      = if pass = 0 then 1 else 0 := by
  unfold tt_assert
  split_ifs <;> rfl

theorem tt_assert_frame (file : CStr) (line : Int) (msg expression : CStr) (pass : Int)
    (s : State) :
    (tt_assert file line msg expression pass s).2.tt_head = s.tt_head
    ∧ (tt_assert file line msg expression pass s).2.tt_passes = s.tt_passes
    ∧ (tt_assert file line msg expression pass s).2.tt_fails = s.tt_fails
    ∧ (tt_assert file line msg expression pass s).2.tt_current_test = s.tt_current_test
    ∧ (tt_assert file line msg expression pass s).2.tt_current_file = some file := by
  unfold tt_assert
  split_ifs <;> simp

theorem tt_assert_trace (file : CStr) (line : Int) (msg expression : CStr) (pass : Int)
    (s : State) :
    ∃ es, (tt_assert file line msg expression pass s).2.trace = s.trace ++ es
      ∧ ∀ e ∈ es, Event.from_body e = true := by
  unfold tt_assert
  split_ifs
  · exact ⟨[Event.assert_call file line msg expression pass,
      Event.print_failure file line s.tt_current_test (some msg) (some expression)],
      by simp, by simp [Event.from_body]⟩
  · exact ⟨[Event.assert_call file line msg expression pass], by simp, by simp [Event.from_body]⟩

theorem exec_TT_ASSERT (file : CStr) (line : Int) (msg expression : CStr) (evaluated : Int)
    (rest : TestBody) (s : State) :
    (TestBody.TT_ASSERT file line msg expression evaluated rest).exec s
      = if (if evaluated ≠ 0 then (1 : Int) else 0) = 0
        then (tt_assert file line msg expression (if evaluated ≠ 0 then 1 else 0) s).2
        else rest.exec (tt_assert file line msg expression (if evaluated ≠ 0 then 1 else 0) s).2 :=
  rfl

theorem exec_frame (b : TestBody) (s : State) :
    (b.exec s).tt_head = s.tt_head ∧ (b.exec s).tt_passes = s.tt_passes
    ∧ (b.exec s).tt_fails = s.tt_fails ∧ (b.exec s).tt_current_test = s.tt_current_test := by
  induction b generalizing s with
  | ret => simp [TestBody.exec]
  | TT_ASSERT file line msg expression evaluated rest ih =>
    rw [exec_TT_ASSERT]
    generalize (if evaluated ≠ 0 then (1 : Int) else 0) = pass
    have h := tt_assert_frame file line msg expression pass s
    split_ifs
    · exact ⟨h.1, h.2.1, h.2.2.1, h.2.2.2.1⟩
    · have h2 := ih (tt_assert file line msg expression pass s).2
      exact ⟨h2.1.trans h.1, h2.2.1.trans h.2.1, h2.2.2.1.trans h.2.2.1,
        h2.2.2.2.trans h.2.2.2.1⟩
  | call helper rest ih1 ih2 =>
    simp only [TestBody.exec]
    have h1 := ih1 s
    have h2 := ih2 (helper.exec s)
    exact ⟨h2.1.trans h1.1, h2.2.1.trans h1.2.1, h2.2.2.1.trans h1.2.2.1,
      h2.2.2.2.trans h1.2.2.2⟩

theorem exec_trace (b : TestBody) (s : State) :
    ∃ es, (b.exec s).trace = s.trace ++ es ∧ ∀ e ∈ es, Event.from_body e = true := by
  induction b generalizing s with
  | ret => exact ⟨[], by simp [TestBody.exec], by simp⟩
  | TT_ASSERT file line msg expression evaluated rest ih =>
    rw [exec_TT_ASSERT]
    generalize (if evaluated ≠ 0 then (1 : Int) else 0) = pass
    obtain ⟨es, h1, h2⟩ := tt_assert_trace file line msg expression pass s
    split_ifs
    · exact ⟨es, h1, h2⟩
    · obtain ⟨es2, h3, h4⟩ := ih (tt_assert file line msg expression pass s).2
      refine ⟨es ++ es2, by rw [h3, h1, List.append_assoc], ?_⟩
      intro e he
      rcases List.mem_append.1 he with he | he
      · exact h2 e he
      · exact h4 e he
  | call helper rest ih1 ih2 =>
    obtain ⟨es, h1, h2⟩ := ih1 s
    obtain ⟨es2, h3, h4⟩ := ih2 (helper.exec s)
    simp only [TestBody.exec]
    refine ⟨es ++ es2, by rw [h3, h1, List.append_assoc], ?_⟩
    intro e he
    rcases List.mem_append.1 he with he | he
    · exact h2 e he
    · exact h4 e he

/-- The flag a body leaves depends on the state it starts in through the flag only. -/
theorem exec_flag_congr (b : TestBody) (s t : State)
    (h : s.tt_current_test_failed = t.tt_current_test_failed) :
    (b.exec s).tt_current_test_failed = (b.exec t).tt_current_test_failed := by
  induction b generalizing s t with
  | ret => simpa [TestBody.exec] using h
  | TT_ASSERT file line msg expression evaluated rest ih =>
    rw [exec_TT_ASSERT, exec_TT_ASSERT]
    generalize (if evaluated ≠ 0 then (1 : Int) else 0) = pass
    split_ifs
    · rw [tt_assert_flag, tt_assert_flag]
    · apply ih
      rw [tt_assert_flag, tt_assert_flag]
  | call helper rest ih1 ih2 =>
    simp only [TestBody.exec]
    exact ih2 _ _ (ih1 s t h)

/-- The file a body leaves depends on the state it starts in through the file only. -/
theorem exec_file_congr (b : TestBody) (s t : State)
    (h : s.tt_current_file = t.tt_current_file) :
    (b.exec s).tt_current_file = (b.exec t).tt_current_file := by
  induction b generalizing s t with
  | ret => simpa [TestBody.exec] using h
  | TT_ASSERT file line msg expression evaluated rest ih =>
    rw [exec_TT_ASSERT, exec_TT_ASSERT]
    generalize (if evaluated ≠ 0 then (1 : Int) else 0) = pass
    have h1 := tt_assert_frame file line msg expression pass s
    have h2 := tt_assert_frame file line msg expression pass t
    split_ifs
    · rw [h1.2.2.2.2, h2.2.2.2.2]
    · apply ih
      rw [h1.2.2.2.2, h2.2.2.2.2]
  | call helper rest ih1 ih2 =>
    simp only [TestBody.exec]
    exact ih2 _ _ (ih1 s t h)

/-! ## `tt_execute` -/

theorem tt_execute_flag (name : CStr) (f : TestBody) (s t : State) :
    (tt_execute name f s).tt_current_test_failed
      = (tt_execute name f t).tt_current_test_failed := by
  have key : ∀ u : State, (tt_execute name f u).tt_current_test_failed
      = (f.exec State.initial).tt_current_test_failed := by
    intro u
    unfold tt_execute
    simp only []
    split_ifs <;> exact exec_flag_congr f _ _ rfl
  rw [key s, key t]

theorem tt_execute_counters (t : tt_test) (probe s : State) :
    (tt_execute t.name t.test_function s).tt_fails
      = s.tt_fails + (if failed_at_return probe t then 1 else 0)
    ∧ (tt_execute t.name t.test_function s).tt_passes
      = s.tt_passes + (if failed_at_return probe t then 0 else 1) := by
  have hflag := tt_execute_flag t.name t.test_function s probe
  have hfr := exec_frame t.test_function
    { s with tt_current_test_failed := 0, tt_current_test := some t.name,
             trace := s.trace ++ [Event.test_call t.name t.test_function] }
  simp only [failed_at_return, ← hflag]
  unfold tt_execute
  simp only [] at hfr ⊢
  split_ifs with h1 <;> simp_all

theorem tt_execute_head (name : CStr) (f : TestBody) (s : State) :
    (tt_execute name f s).tt_head = s.tt_head := by
  have hfr := exec_frame f
    { s with tt_current_test_failed := 0, tt_current_test := some name,
             trace := s.trace ++ [Event.test_call name f] }
  unfold tt_execute
  simp only [] at hfr ⊢
  split_ifs <;> simp [hfr.1]

theorem tt_execute_trace (name : CStr) (f : TestBody) (s : State) :
    ∃ es, (tt_execute name f s).trace = s.trace ++ Event.test_call name f :: es
      ∧ ∀ e ∈ es, Event.from_body e = true := by
  obtain ⟨es, h1, h2⟩ := exec_trace f
    { s with tt_current_test_failed := 0, tt_current_test := some name,
             trace := s.trace ++ [Event.test_call name f] }
  refine ⟨es, ?_, h2⟩
  unfold tt_execute
  simp only [] at h1 ⊢
  split_ifs <;> simp [h1]

/-! ## The loop of `tt_run_all`, run by run -/

theorem suite_runs_cons (t : tt_test) (rest : List tt_test) :
    ∃ g gs, suite_runs (t :: rest) = (t :: g) :: gs := by
  induction rest generalizing t with
  | nil => exact ⟨[], [], rfl⟩
  | cons next rest ih =>
    obtain ⟨g, gs, h⟩ := ih next
    simp only [suite_runs, h]
    split_ifs
    · exact ⟨[], _, rfl⟩
    · exact ⟨_, _, rfl⟩

theorem loop_single (t : tt_test) (rc : Int) (s : State) :
    tt_run_all.loop [t] rc s
      = (Int.lor rc (tt_report (tt_execute t.name t.test_function s)).1,
         (tt_report (tt_execute t.name t.test_function s)).2) := rfl

theorem loop_cons_cons (t next : tt_test) (rest : List tt_test) (rc : Int) (s : State) :
    tt_run_all.loop (t :: next :: rest) rc s
      = if 0 ≠ strcmp next.suite t.suite then
          tt_run_all.loop (next :: rest)
            (Int.lor rc (tt_report (tt_execute t.name t.test_function s)).1)
            (tt_report (tt_execute t.name t.test_function s)).2
        else tt_run_all.loop (next :: rest) rc (tt_execute t.name t.test_function s) := rfl

theorem run_suites_cons (g : List tt_test) (gs : List (List tt_test)) (rc : Int) (s : State) :
    run_suites (g :: gs) rc s
      = run_suites gs (Int.lor rc (tt_report (run_tests g s)).1) (tt_report (run_tests g s)).2 :=
  rfl

theorem run_tests_cons (t : tt_test) (g : List tt_test) (s : State) :
    run_tests (t :: g) s = run_tests g (tt_execute t.name t.test_function s) := rfl

theorem loop_eq_run_suites (chain : List tt_test) (rc : Int) (s : State) :
    tt_run_all.loop chain rc s = run_suites (suite_runs chain) rc s := by
  induction chain generalizing rc s with
  | nil => rfl
  | cons t rest ih =>
    cases rest with
    | nil => rfl
    | cons next rest =>
      obtain ⟨g, gs, h⟩ := suite_runs_cons next rest
      rw [loop_cons_cons]
      simp only [suite_runs, h]
      split_ifs with hne
      · rw [ih, h]
        rfl
      · rw [ih, h]
        rfl

/-! ## The trace of a run -/

theorem runner_events_append (a b : List Event) :
    runner_events (a ++ b) = runner_events a ++ runner_events b := by
  simp [runner_events]

theorem runner_events_body (es : List Event) (h : ∀ e ∈ es, Event.from_body e = true) :
    runner_events es = [] := by
  simp only [runner_events, List.filter_eq_nil_iff]
  intro e he
  simp [h e he]

theorem tt_execute_runner_events (name : CStr) (f : TestBody) (s : State) :
    runner_events (tt_execute name f s).trace
      = runner_events s.trace ++ [Event.test_call name f] := by
  obtain ⟨es, h1, h2⟩ := tt_execute_trace name f s
  rw [h1, runner_events_append, ← List.singleton_append, runner_events_append,
    runner_events_body es h2]
  simp [runner_events, Event.from_body]

theorem tt_execute_file (t : tt_test) (s : State) :
    (tt_execute t.name t.test_function s).tt_current_file
      = file_after_test t s.tt_current_file := by
  unfold file_after_test tt_execute
  simp only []
  split_ifs <;> exact exec_file_congr _ _ _ rfl

theorem counts_cons (probe : State) (t : tt_test) (g : List tt_test) :
    failed_count probe (t :: g)
      = (if failed_at_return probe t then 1 else 0) + failed_count probe g
    ∧ passed_count probe (t :: g)
      = (if failed_at_return probe t then 0 else 1) + passed_count probe g := by
  unfold failed_count passed_count
  cases h : failed_at_return probe t
  · simp [List.filter_cons, h]; omega
  · simp [List.filter_cons, h]; omega

theorem run_tests_spec (probe : State) (g : List tt_test) (s : State) :
    (run_tests g s).tt_head = s.tt_head
    ∧ (run_tests g s).tt_fails = s.tt_fails + failed_count probe g
    ∧ (run_tests g s).tt_passes = s.tt_passes + passed_count probe g
    ∧ (run_tests g s).tt_current_file = file_after g s.tt_current_file
    ∧ runner_events (run_tests g s).trace
      = runner_events s.trace ++ g.map (fun t => Event.test_call t.name t.test_function) := by
  induction g generalizing s with
  | nil => simp [run_tests, failed_count, passed_count, file_after]
  | cons t g ih =>
    rw [run_tests_cons]
    obtain ⟨h1, h2, h3, h4, h5⟩ := ih (tt_execute t.name t.test_function s)
    obtain ⟨c1, c2⟩ := tt_execute_counters t probe s
    obtain ⟨d1, d2⟩ := counts_cons probe t g
    refine ⟨?_, ?_, ?_, ?_, ?_⟩
    · rw [h1, tt_execute_head]
    · rw [h2, c1, d1]; omega
    · rw [h3, c2, d2]; omega
    · rw [h4, tt_execute_file]; rfl
    · rw [h5, tt_execute_runner_events]; simp

theorem tt_report_spec (s : State) :
    (tt_report s).1 = (if s.tt_fails ≠ 0 then -1 else 0)
    ∧ (tt_report s).2.tt_passes = 0 ∧ (tt_report s).2.tt_fails = 0
    ∧ (tt_report s).2.tt_head = s.tt_head
    ∧ (tt_report s).2.tt_current_file = s.tt_current_file
    ∧ (tt_report s).2.trace
        = s.trace ++ [summary_event s.tt_current_file s.tt_passes s.tt_fails] := by
  unfold tt_report summary_event
  split_ifs <;> simp

theorem suite_status_eq (probe : State) (g : List tt_test) :
    suite_status probe g = if failed_count probe g ≠ 0 then -1 else 0 :=
  (tt_report_spec _).1

theorem summary_event_runner (name : Option CStr) (p f : Int) :
    runner_events [summary_event name p f] = [summary_event name p f] := by
  unfold summary_event
  split_ifs <;> simp [runner_events, Event.from_body]

theorem run_suites_head (groups : List (List tt_test)) (rc : Int) (s : State) :
    (run_suites groups rc s).2.tt_head = s.tt_head := by
  induction groups generalizing rc s with
  | nil => rfl
  | cons g gs ih =>
    rw [run_suites_cons, ih, (tt_report_spec _).2.2.2.1, (run_tests_spec s g s).1]

theorem run_suites_status (probe : State) (groups : List (List tt_test)) (rc : Int)
    (s : State) (hf : s.tt_fails = 0) :
    (run_suites groups rc s).1
      = groups.foldl (fun acc g => Int.lor acc (suite_status probe g)) rc := by
  induction groups generalizing rc s with
  | nil => rfl
  | cons g gs ih =>
    obtain ⟨_, h2, _⟩ := run_tests_spec probe g s
    obtain ⟨r1, _, r3, _⟩ := tt_report_spec (run_tests g s)
    rw [run_suites_cons, ih _ _ r3, r1, h2, hf, List.foldl_cons]
    simp [suite_status_eq]

theorem run_suites_events (probe : State) (groups : List (List tt_test)) (rc : Int)
    (s : State) :
    runner_events (run_suites groups rc s).2.trace
      = runner_events s.trace
        ++ expected_events probe groups s.tt_passes s.tt_fails s.tt_current_file := by
  induction groups generalizing rc s with
  | nil => simp [run_suites, expected_events]
  | cons g gs ih =>
    obtain ⟨_, h2, h3, h4, h5⟩ := run_tests_spec probe g s
    obtain ⟨_, r2, r3, _, r5, r6⟩ := tt_report_spec (run_tests g s)
    rw [run_suites_cons, ih, r2, r3, r5, r6, runner_events_append, summary_event_runner,
      h5, h4, h2, h3, expected_events]
    simp

/-! ## In a sorted chain the runs are the suites -/

theorem mem_suites (k : CStr) (chain : List tt_test) (h : k ∈ suites chain) :
    ∃ u ∈ chain, k = u.suite := by
  induction chain with
  | nil => simp [suites] at h
  | cons t rest ih =>
    simp only [suites, List.mem_cons] at h
    rcases h with rfl | h
    · exact ⟨t, List.mem_cons_self _ _, rfl⟩
    · obtain ⟨u, hu, hk⟩ := ih (List.mem_filter.1 h).1
      exact ⟨u, List.mem_cons_of_mem _ hu, hk⟩

theorem suites_cons_cons_same (t next : tt_test) (rest : List tt_test)
    (h : strcmp next.suite t.suite = 0) :
    suites (t :: next :: rest)
      = t.suite :: (suites rest).filter (fun k => decide (strcmp k next.suite ≠ 0)) := by
  have e : suites (t :: next :: rest)
      = t.suite :: (next.suite :: (suites rest).filter
          (fun k => decide (strcmp k next.suite ≠ 0))).filter
          (fun k => decide (strcmp k t.suite ≠ 0)) := rfl
  rw [e, List.filter_cons]
  simp only [h, ne_eq, not_true_eq_false, decide_False, Bool.false_eq_true, if_false]
  congr 1
  rw [List.filter_eq_self]
  intro k hk
  have hk2 := (List.mem_filter.1 hk).2
  rw [← strcmp_congr_right k h]
  exact hk2

theorem tests_of_cons_same (k : CStr) (t : tt_test) (rest : List tt_test)
    (h : strcmp t.suite k = 0) : tests_of k (t :: rest) = t :: tests_of k rest := by
  simp [tests_of, List.filter_cons, same_suite, h]

theorem tests_of_cons_other (k : CStr) (t : tt_test) (rest : List tt_test)
    (h : strcmp t.suite k ≠ 0) : tests_of k (t :: rest) = tests_of k rest := by
  simp [tests_of, List.filter_cons, same_suite, h]

theorem tests_of_congr (a b : CStr) (h : strcmp a b = 0) (chain : List tt_test) :
    tests_of a chain = tests_of b chain := by
  unfold tests_of
  apply List.filter_congr
  intro u _
  unfold same_suite
  rw [strcmp_congr_right u.suite h]

theorem suite_runs_eq (chain : List tt_test) (h : suite_sorted chain) :
    suite_runs chain = (suites chain).map (fun k => tests_of k chain) := by
  induction chain with
  | nil => rfl
  | cons t rest ih =>
    cases rest with
    | nil =>
      simp [suite_runs, suites, tests_of, List.filter_cons, same_suite, strcmp_self]
    | cons next rest =>
      unfold suite_sorted at h ih
      rw [List.pairwise_cons] at h
      have ih2 := ih h.2
      by_cases hne : 0 ≠ strcmp next.suite t.suite
      · -- the suite of `t` ends at `t`
        have hA : ∀ u ∈ next :: rest, strcmp u.suite t.suite ≠ 0 := by
          intro u hu
          have h1 := h.1 next (List.mem_cons_self _ _)
          have h2 := strcmp_swap next.suite t.suite
          have h3 : strcmp t.suite next.suite < 0 := by omega
          have h4 : strcmp next.suite u.suite ≤ 0 := by
            rcases List.mem_cons.1 hu with rfl | hu2
            · rw [strcmp_self]
            · exact (List.pairwise_cons.1 h.2).1 u hu2
          have h5 := strcmp_lt_of_lt_of_le h3 h4
          have h6 := strcmp_swap u.suite t.suite
          omega
        have hB : ∀ k ∈ suites (next :: rest), strcmp k t.suite ≠ 0 := by
          intro k hk
          obtain ⟨u, hu, rfl⟩ := mem_suites k _ hk
          exact hA u hu
        have e1 : suite_runs (t :: next :: rest) = [t] :: suite_runs (next :: rest) := by
          show (if 0 ≠ strcmp next.suite t.suite then [t] :: suite_runs (next :: rest)
            else _) = _
          rw [if_pos hne]
        have e2 : suites (t :: next :: rest) = t.suite :: suites (next :: rest) := by
          have e : suites (t :: next :: rest)
              = t.suite :: (suites (next :: rest)).filter
                  (fun k => decide (strcmp k t.suite ≠ 0)) := rfl
          rw [e, List.filter_eq_self.2]
          intro k hk
          simpa using hB k hk
        rw [e1, e2, ih2, List.map_cons, tests_of_cons_same _ _ _ (strcmp_self t.suite)]
        congr 1
        · congr 1
          symm
          simp only [tests_of, List.filter_eq_nil_iff]
          intro u hu
          simpa [same_suite] using hA u hu
        · apply List.map_congr_left
          intro k hk
          have h1 := strcmp_swap k t.suite
          have h2 := hB k hk
          exact (tests_of_cons_other k t _ (by omega)).symm
      · -- `next` continues the suite of `t`
        have hs : strcmp next.suite t.suite = 0 := by omega
        have hs2 : strcmp t.suite next.suite = 0 := by
          have := strcmp_swap t.suite next.suite
          omega
        have e3 : suites (next :: rest)
            = next.suite :: (suites rest).filter (fun k => decide (strcmp k next.suite ≠ 0)) :=
          rfl
        rw [e3, List.map_cons] at ih2
        have e1 : suite_runs (t :: next :: rest)
            = (t :: tests_of next.suite (next :: rest))
              :: ((suites rest).filter (fun k => decide (strcmp k next.suite ≠ 0))).map
                  (fun k => tests_of k (next :: rest)) := by
          simp only [suite_runs, hne, if_false, ih2]
        rw [e1, suites_cons_cons_same t next rest hs, List.map_cons,
          tests_of_cons_same _ _ _ (strcmp_self t.suite),
          tests_of_congr t.suite next.suite hs2]
        congr 1
        apply List.map_congr_left
        intro k hk
        have hk2 : strcmp k next.suite ≠ 0 := by simpa using (List.mem_filter.1 hk).2
        have h1 := strcmp_congr_left k hs2
        have h2 := strcmp_swap k next.suite
        exact (tests_of_cons_other k t _ (by omega)).symm

/-! ## Registration and execution order -/

theorem tt_run_all_loop (s : State) :
    (tt_run_all s).1 = (run_suites (suite_runs s.tt_head) 0 s).1
    ∧ (tt_run_all s).2.trace = (run_suites (suite_runs s.tt_head) 0 s).2.trace := by
  unfold tt_run_all
  rw [loop_eq_run_suites]
  exact ⟨rfl, rfl⟩

theorem suite_runs_join (chain : List tt_test) : (suite_runs chain).flatten = chain := by
  induction chain with
  | nil => rfl
  | cons t rest ih =>
    cases rest with
    | nil => rfl
    | cons next rest =>
      obtain ⟨g, gs, h⟩ := suite_runs_cons next rest
      rw [h] at ih
      simp only [suite_runs, h]
      split_ifs
      · simp only [List.flatten_cons, List.singleton_append] at ih ⊢
        rw [ih]
      · simp only [List.flatten_cons, List.cons_append] at ih ⊢
        rw [ih]

theorem filterMap_runner_events {α : Type} (p : Event → Option α)
    (hp : ∀ e, Event.from_body e = true → p e = none) (trace : List Event) :
    trace.filterMap p = (runner_events trace).filterMap p := by
  induction trace with
  | nil => rfl
  | cons e es ih =>
    cases hb : Event.from_body e
    · simp [runner_events, List.filter_cons, hb, List.filterMap_cons] at ih ⊢
      rw [ih]
    · simp [runner_events, List.filter_cons, hb, List.filterMap_cons, hp e hb] at ih ⊢
      exact ih

theorem call_from_body (e : Event) (h : Event.from_body e = true) : Event.call? e = none := by
  cases e <;> simp [Event.from_body, Event.call?] at h ⊢

theorem run_tests_calls (g : List tt_test) (s : State) :
    test_calls (run_tests g s).trace = test_calls s.trace ++ g.map tt_test.call := by
  have h := (run_tests_spec State.initial g s).2.2.2.2
  unfold test_calls
  rw [filterMap_runner_events _ call_from_body, h, List.filterMap_append,
    ← filterMap_runner_events _ call_from_body]
  congr 1
  clear h
  induction g with
  | nil => rfl
  | cons t g ih =>
    rw [List.map_cons, List.map_cons, List.filterMap_cons, ih]
    rfl

theorem call_of_summary_event (name : Option CStr) (p f : Int) :
    Event.call? (summary_event name p f) = none := by
  unfold summary_event
  split_ifs <;> rfl

theorem run_suites_calls (groups : List (List tt_test)) (rc : Int) (s : State) :
    test_calls (run_suites groups rc s).2.trace
      = test_calls s.trace ++ groups.flatten.map tt_test.call := by
  induction groups generalizing rc s with
  | nil => simp [run_suites]
  | cons g gs ih =>
    rw [run_suites_cons, ih, (tt_report_spec _).2.2.2.2.2]
    unfold test_calls at *
    rw [List.filterMap_append]
    have h := run_tests_calls g s
    unfold test_calls at h
    rw [h, List.filterMap_cons_none (call_of_summary_event _ _ _)]
    simp

theorem tt_run_all_calls (s : State) :
    test_calls (tt_run_all s).2.trace = test_calls s.trace ++ s.tt_head.map tt_test.call := by
  rw [(tt_run_all_loop s).2, run_suites_calls, suite_runs_join]

theorem register_all_frame (tests : List tt_test) (s : State) :
    (register_all tests s).trace = s.trace
    ∧ (register_all tests s).tt_passes = s.tt_passes
    ∧ (register_all tests s).tt_fails = s.tt_fails
    ∧ (register_all tests s).tt_current_file = s.tt_current_file := by
  induction tests generalizing s with
  | nil => exact ⟨rfl, rfl, rfl, rfl⟩
  | cons t ts ih =>
    have h := ih (tt_register t.name t.suite t.test_function s)
    exact h

/-- C1 (as the code has it): starting from an empty registry, `tt_run_all` calls the test
functions in the order of the stable sort by suite of the REVERSED registration sequence.
That order is ascending by suite under `strcmp`, and the tests of any one suite are
executed in the reverse of the order in which they were registered: of two tests with
equal suite strings the one registered later is executed first. -/
theorem execution_order_reverse_stable (regs : List tt_test) (s : State)
    (h : s.tt_head = []) :
    test_calls (tt_run_all (register_all regs s)).2.trace
        = test_calls s.trace ++ (stable_sort_by_suite regs.reverse).map tt_test.call
    ∧ suite_sorted (stable_sort_by_suite regs.reverse)
    ∧ ∀ k, tests_of k (stable_sort_by_suite regs.reverse) = (tests_of k regs).reverse := by
  have hs := register_all_eq_sort regs s h
  refine ⟨?_, ?_, ?_⟩
  · rw [tt_run_all_calls, (register_all_frame regs s).1, hs]
  · rw [← hs]
    exact register_all_sorted regs s h
  · intro k
    rw [← hs, register_all_head, h, tests_of_foldl_link]
    simp [tests_of]

theorem execution_order_reverse_stable_witness :
    State.initial.tt_head = []
    ∧ test_calls (tt_run_all (register_all [test_a, test_b, test_c] State.initial)).2.trace
        = test_calls State.initial.trace
          ++ (stable_sort_by_suite [test_a, test_b, test_c].reverse).map tt_test.call :=
  ⟨rfl, (execution_order_reverse_stable [test_a, test_b, test_c] State.initial rfl).1⟩

/-- C1 fails as stated: `test_a` is registered before `test_b`, both in suite `S1`, and
`tt_run_all` executes `test_b` first, whereas the stable sort of the registration sequence
has `test_a` first. -/
theorem execution_order_not_stable :
    test_calls (tt_run_all (register_all [test_a, test_b] State.initial)).2.trace
        = [test_b.call, test_a.call]
    ∧ strcmp test_a.suite test_b.suite = 0
    ∧ (stable_sort_by_suite [test_a, test_b]).map tt_test.call = [test_a.call, test_b.call]
    ∧ test_calls (tt_run_all (register_all [test_a, test_b] State.initial)).2.trace
        ≠ (stable_sort_by_suite [test_a, test_b]).map tt_test.call := by
  decide

/-! ## Sortedness of the registry -/

/-- C2: `tt_register` keeps a chain that is in non-decreasing suite order in non-decreasing
suite order; hence the registry built from the empty one by any sequence of `tt_register`
calls is suite-sorted, and the tests of one suite are adjacent in it: whatever lies
between two nodes with equal suite strings has that suite string too. -/
theorem registry_sorted_invariant :
    (∀ (name suite : CStr) (f : TestBody) (s : State),
      suite_sorted s.tt_head → suite_sorted (tt_register name suite f s).tt_head)
    ∧ (∀ (regs : List tt_test) (s : State), s.tt_head = [] →
        suite_sorted (register_all regs s).tt_head
        ∧ ∀ (l1 l2 l3 : List tt_test) (a b : tt_test),
            (register_all regs s).tt_head = l1 ++ a :: (l2 ++ b :: l3) →
            strcmp a.suite b.suite = 0 → ∀ x ∈ l2, strcmp x.suite a.suite = 0) := by
  refine ⟨?_, ?_⟩
  · intro name suite f s h
    exact link_sorted _ _ h
  · intro regs s h
    have hs := register_all_sorted regs s h
    refine ⟨hs, ?_⟩
    intro l1 l2 l3 a b e hab x hx
    unfold suite_sorted at hs
    rw [e] at hs
    have h2 := (List.pairwise_append.1 hs).2.1
    rw [List.pairwise_cons] at h2
    have hax : strcmp a.suite x.suite ≤ 0 := h2.1 x (by simp [hx])
    have hxb : strcmp x.suite b.suite ≤ 0 :=
      (List.pairwise_append.1 h2.2).2.2 x hx b (List.mem_cons_self _ _)
    have hba : strcmp b.suite a.suite ≤ 0 := by
      have := strcmp_swap a.suite b.suite
      omega
    have hxa := strcmp_le_trans hxb hba
    have := strcmp_swap a.suite x.suite
    omega

theorem registry_sorted_invariant_witness :
    (suite_sorted ({ State.initial with tt_head := [test_a, test_c] } : State).tt_head
      ∧ suite_sorted (tt_register "test_b" "S1" test_b.test_function
          { State.initial with tt_head := [test_a, test_c] }).tt_head)
    ∧ (State.initial.tt_head = []
      ∧ suite_sorted (register_all [test_c, test_a, test_b] State.initial).tt_head) :=
  ⟨⟨by decide, registry_sorted_invariant.1 _ _ _ _ (by decide)⟩,
   ⟨rfl, (registry_sorted_invariant.2 [test_c, test_a, test_b] State.initial rfl).1⟩⟩

/-! ## Tallies and status -/

theorem tt_run_all_status (probe : State) (s : State) (hf : s.tt_fails = 0) :
    (tt_run_all s).1
      = (suite_runs s.tt_head).foldl (fun acc g => Int.lor acc (suite_status probe g)) 0 := by
  rw [(tt_run_all_loop s).1]
  exact run_suites_status probe _ 0 s hf

theorem tt_run_all_events (probe : State) (s : State) :
    runner_events (tt_run_all s).2.trace
      = runner_events s.trace
        ++ expected_events probe (suite_runs s.tt_head) s.tt_passes s.tt_fails
            s.tt_current_file := by
  rw [(tt_run_all_loop s).2]
  exact run_suites_events probe _ 0 s

theorem run_suites_counters (groups : List (List tt_test)) (rc : Int) (s : State)
    (hp : s.tt_passes = 0) (hf : s.tt_fails = 0) :
    (run_suites groups rc s).2.tt_passes = 0 ∧ (run_suites groups rc s).2.tt_fails = 0 := by
  induction groups generalizing rc s with
  | nil => exact ⟨hp, hf⟩
  | cons g gs ih =>
    rw [run_suites_cons]
    exact ih _ _ (tt_report_spec _).2.1 (tt_report_spec _).2.2.1

/-- Whenever the framework is entered, both counters are zero and the registry is in
non-decreasing suite order. -/
theorem reachable_invariant (s : State) (h : Reachable s) :
    s.tt_passes = 0 ∧ s.tt_fails = 0 ∧ suite_sorted s.tt_head := by
  induction h with
  | start => exact ⟨rfl, rfl, List.Pairwise.nil⟩
  | register name suite f s _ ih => exact ⟨ih.1, ih.2.1, link_sorted _ _ ih.2.2⟩
  | run s _ ih =>
    have hc := run_suites_counters (suite_runs s.tt_head) 0 s ih.1 ih.2.1
    have hd : (tt_run_all s).2.tt_head = [] := by
      show tt_run_all.drain _ = []
      generalize (tt_run_all.loop s.tt_head 0 s).2.tt_head = l
      induction l with
      | nil => rfl
      | cons t rest ihl => exact ihl
    refine ⟨?_, ?_, ?_⟩
    · show (tt_run_all.loop s.tt_head 0 s).2.tt_passes = 0
      rw [loop_eq_run_suites]
      exact hc.1
    · show (tt_run_all.loop s.tt_head 0 s).2.tt_fails = 0
      rw [loop_eq_run_suites]
      exact hc.2
    · rw [hd]
      exact List.Pairwise.nil

theorem summary_from_body (e : Event) (h : Event.from_body e = true) :
    Event.summary? e = none := by
  cases e <;> simp [Event.from_body, Event.summary?] at h ⊢

theorem filterMap_test_calls {α : Type} (p : Event → Option α)
    (hp : ∀ name f, p (Event.test_call name f) = none) (g : List tt_test) :
    (g.map (fun t => Event.test_call t.name t.test_function)).filterMap p = [] := by
  induction g with
  | nil => rfl
  | cons t g ih => rw [List.map_cons, List.filterMap_cons, hp, ih]

theorem summary_of_summary_event (probe : State) (name : Option CStr) (g : List tt_test) :
    Event.summary? (summary_event name (0 + passed_count probe g) (0 + failed_count probe g))
      = some (summary_line probe g) := by
  rw [zero_add, zero_add]
  unfold summary_event summary_line
  split_ifs <;> rfl

theorem summary_lines_expected (probe : State) (groups : List (List tt_test))
    (file : Option CStr) :
    (expected_events probe groups 0 0 file).filterMap Event.summary?
      = groups.map (summary_line probe) := by
  induction groups generalizing file with
  | nil => rfl
  | cons g gs ih =>
    rw [expected_events, List.filterMap_append,
      filterMap_test_calls _ (fun _ _ => rfl),
      List.filterMap_cons_some (summary_of_summary_event probe _ g), ih]
    rfl

theorem tt_run_all_summary_lines (probe : State) (s : State)
    (hp : s.tt_passes = 0) (hf : s.tt_fails = 0) :
    summary_lines (tt_run_all s).2.trace
      = summary_lines s.trace ++ (suite_runs s.tt_head).map (summary_line probe) := by
  unfold summary_lines
  rw [filterMap_runner_events _ summary_from_body, tt_run_all_events probe s, hp, hf,
    List.filterMap_append, ← filterMap_runner_events _ summary_from_body,
    summary_lines_expected]

theorem counts_reverse (probe : State) (g : List tt_test) :
    passed_count probe g.reverse = passed_count probe g
    ∧ failed_count probe g.reverse = failed_count probe g := by
  unfold passed_count failed_count
  simp [List.filter_reverse]

/-- C3: for a registry built by `tt_register` from the empty one and run by `tt_run_all`
with both counters at zero, the summaries come one per suite, in chain order, and the
summary of a suite with `p` tests whose failure flag is clear when they return and `f`
tests whose flag is set reports `passed:p, failed:f, tests:p+f` on a `FAILED` line when
`f` is not zero and `tests:p` on a `PASSED` line when it is; `p` and `f` are the counts
among the registered tests of that suite.  The flag of a test at its return may be taken
in any state `probe` the test is started from. -/
theorem tally_correct (probe : State) (regs : List tt_test) (s : State)
    (h : s.tt_head = []) (hp : s.tt_passes = 0) (hf : s.tt_fails = 0) :
    summary_lines (tt_run_all (register_all regs s)).2.trace
        = summary_lines s.trace
          ++ (suites (register_all regs s).tt_head).map
              (fun k => summary_line probe (tests_of k (register_all regs s).tt_head))
    ∧ ∀ k, passed_count probe (tests_of k (register_all regs s).tt_head)
            = passed_count probe (tests_of k regs)
          ∧ failed_count probe (tests_of k (register_all regs s).tt_head)
            = failed_count probe (tests_of k regs) := by
  obtain ⟨f1, f2, f3, _⟩ := register_all_frame regs s
  refine ⟨?_, ?_⟩
  · rw [tt_run_all_summary_lines probe _ (f2.trans hp) (f3.trans hf), f1,
      suite_runs_eq _ (register_all_sorted regs s h), List.map_map]
    rfl
  · intro k
    have e : tests_of k (register_all regs s).tt_head = (tests_of k regs).reverse := by
      rw [register_all_head, h, tests_of_foldl_link]
      simp [tests_of]
    rw [e]
    exact counts_reverse probe _

theorem tally_correct_witness :
    (State.initial.tt_head = [] ∧ State.initial.tt_passes = 0 ∧ State.initial.tt_fails = 0)
    ∧ summary_lines (tt_run_all (register_all [test_a, test_b, test_c] State.initial)).2.trace
        = summary_lines State.initial.trace
          ++ (suites (register_all [test_a, test_b, test_c] State.initial).tt_head).map
              (fun k => summary_line State.initial
                (tests_of k (register_all [test_a, test_b, test_c] State.initial).tt_head)) :=
  ⟨⟨rfl, rfl, rfl⟩,
   (tally_correct State.initial [test_a, test_b, test_c] State.initial rfl rfl rfl).1⟩

theorem failed_count_ne_zero (probe : State) (g : List tt_test) :
    failed_count probe g ≠ 0 ↔ ∃ t ∈ g, failed_at_return probe t = true := by
  unfold failed_count
  rw [Ne, Int.natCast_eq_zero, List.length_eq_zero, ← Ne, ← List.length_pos, List.length_pos_iff_exists_mem]
  constructor
  · rintro ⟨t, ht⟩
    exact ⟨t, (List.mem_filter.1 ht).1, (List.mem_filter.1 ht).2⟩
  · rintro ⟨t, ht, hft⟩
    exact ⟨t, List.mem_filter.2 ⟨ht, hft⟩⟩

theorem failed_count_nonneg (probe : State) (g : List tt_test) : 0 ≤ failed_count probe g := by
  unfold failed_count
  omega

theorem foldl_lor_status (probe : State) (groups : List (List tt_test)) (rc : Int) :
    ((∃ g ∈ groups, failed_count probe g ≠ 0) →
      groups.foldl (fun acc g => Int.lor acc (suite_status probe g)) rc = -1)
    ∧ ((∀ g ∈ groups, failed_count probe g = 0) →
      groups.foldl (fun acc g => Int.lor acc (suite_status probe g)) rc = rc) := by
  induction groups generalizing rc with
  | nil => simp
  | cons g gs ih =>
    rw [List.foldl_cons, suite_status_eq]
    constructor
    · rintro ⟨x, hx, hne⟩
      by_cases hg : failed_count probe g ≠ 0
      · rw [if_pos hg, int_lor_neg_one]
        by_cases hall : ∀ y ∈ gs, failed_count probe y = 0
        · exact (ih (-1)).2 hall
        · push_neg at hall
          exact (ih (-1)).1 hall
      · rw [if_neg hg, int_lor_zero]
        rcases List.mem_cons.1 hx with rfl | hx
        · exact absurd hne hg
        · exact (ih rc).1 ⟨x, hx, hne⟩
    · intro hall
      have hg : ¬ failed_count probe g ≠ 0 := by
        simpa using hall g (List.mem_cons_self _ _)
      rw [if_neg hg, int_lor_zero]
      exact (ih rc).2 (fun y hy => hall y (List.mem_cons_of_mem _ hy))

theorem mem_register_all (x : tt_test) (tests : List tt_test) (s : State) :
    x ∈ (register_all tests s).tt_head ↔ x ∈ tests ∨ x ∈ s.tt_head := by
  induction tests generalizing s with
  | nil => simp [register_all]
  | cons t ts ih =>
    have h := ih (tt_register t.name t.suite t.test_function s)
    have e : register_all (t :: ts) s
        = register_all ts (tt_register t.name t.suite t.test_function s) := rfl
    rw [e, h]
    have hm : x ∈ (tt_register t.name t.suite t.test_function s).tt_head
        ↔ x = t ∨ x ∈ s.tt_head := mem_link t x s.tt_head
    rw [hm, List.mem_cons]
    tauto

theorem foldl_map_lor {α : Type} (f : α → Int) (l : List α) (rc : Int) :
    (l.map f).foldl Int.lor rc = l.foldl (fun acc a => Int.lor acc (f a)) rc := by
  rw [List.foldl_map]

/-- C4: for a registry built by `tt_register` from the empty one, with `tt_fails` at zero
as at program start, the value `tt_run_all` returns is non-zero exactly when some
registered test finishes with its failure flag set, which is exactly when some suite has
a fail count above zero; it is zero exactly when every suite has a fail count of zero;
and it is the bitwise or, from 0, of the values `tt_report` returns for the suites. -/
theorem aggregate_status (probe : State) (regs : List tt_test) (s : State)
    (h : s.tt_head = []) (hf : s.tt_fails = 0) :
    ((tt_run_all (register_all regs s)).1 ≠ 0
        ↔ ∃ t ∈ regs, failed_at_return probe t = true)
    ∧ ((tt_run_all (register_all regs s)).1 ≠ 0
        ↔ ∃ k ∈ suites (register_all regs s).tt_head,
            0 < failed_count probe (tests_of k (register_all regs s).tt_head))
    ∧ ((tt_run_all (register_all regs s)).1 = 0
        ↔ ∀ k ∈ suites (register_all regs s).tt_head,
            failed_count probe (tests_of k (register_all regs s).tt_head) = 0)
    ∧ (tt_run_all (register_all regs s)).1
        = ((suites (register_all regs s).tt_head).map
            (fun k => suite_status probe (tests_of k (register_all regs s).tt_head))).foldl
            Int.lor 0 := by
  obtain ⟨_, _, f3, _⟩ := register_all_frame regs s
  have hrc := tt_run_all_status probe (register_all regs s) (f3.trans hf)
  have hruns := suite_runs_eq _ (register_all_sorted regs s h)
  have hfold := foldl_lor_status probe (suite_runs (register_all regs s).tt_head) 0
  -- the value is 0 or -1 according to whether some run has a failure
  have hcase : ((tt_run_all (register_all regs s)).1 ≠ 0
      ↔ ∃ g ∈ suite_runs (register_all regs s).tt_head, failed_count probe g ≠ 0) := by
    constructor
    · intro hne
      by_contra hno
      push_neg at hno
      exact hne (hrc.trans (hfold.2 hno))
    · intro hex
      rw [hrc, hfold.1 hex]
      decide
  have hgroups : (∃ g ∈ suite_runs (register_all regs s).tt_head, failed_count probe g ≠ 0)
      ↔ ∃ k ∈ suites (register_all regs s).tt_head,
          0 < failed_count probe (tests_of k (register_all regs s).tt_head) := by
    rw [hruns]
    constructor
    · rintro ⟨g, hg, hne⟩
      obtain ⟨k, hk, rfl⟩ := List.mem_map.1 hg
      have := failed_count_nonneg probe (tests_of k (register_all regs s).tt_head)
      exact ⟨k, hk, by omega⟩
    · rintro ⟨k, hk, hpos⟩
      exact ⟨_, List.mem_map.2 ⟨k, hk, rfl⟩, by omega⟩
  refine ⟨?_, ?_, ?_, ?_⟩
  · rw [hcase]
    constructor
    · rintro ⟨g, hg, hne⟩
      obtain ⟨t, ht, hft⟩ := (failed_count_ne_zero probe g).1 hne
      have hmem : t ∈ (suite_runs (register_all regs s).tt_head).flatten :=
        List.mem_flatten.2 ⟨g, hg, ht⟩
      rw [suite_runs_join, mem_register_all, h] at hmem
      simp only [List.not_mem_nil, or_false] at hmem
      exact ⟨t, hmem, hft⟩
    · rintro ⟨t, ht, hft⟩
      have hmem : t ∈ (suite_runs (register_all regs s).tt_head).flatten := by
        rw [suite_runs_join, mem_register_all]
        exact Or.inl ht
      obtain ⟨g, hg, htg⟩ := List.mem_flatten.1 hmem
      exact ⟨g, hg, (failed_count_ne_zero probe g).2 ⟨t, htg, hft⟩⟩
  · rw [hcase, hgroups]
  · rw [← not_iff_not, ← Ne, hcase, hgroups]
    push_neg
    constructor
    · rintro ⟨k, hk, hpos⟩
      exact ⟨k, hk, by omega⟩
    · rintro ⟨k, hk, hne⟩
      have := failed_count_nonneg probe (tests_of k (register_all regs s).tt_head)
      exact ⟨k, hk, by omega⟩
  · rw [hrc, hruns, foldl_map_lor, List.foldl_map]

theorem aggregate_status_witness :
    (State.initial.tt_head = [] ∧ State.initial.tt_fails = 0)
    ∧ ((tt_run_all (register_all [test_a, test_b, test_c] State.initial)).1 ≠ 0
        ↔ ∃ t ∈ [test_a, test_b, test_c], failed_at_return State.initial t = true) :=
  ⟨⟨rfl, rfl⟩,
   (aggregate_status State.initial [test_a, test_b, test_c] State.initial rfl rfl).1⟩

/-! ## Fail-fast -/

theorem step_from_body (e : Event) (h : Event.from_body e = true) : Event.step? e = none := by
  cases e <;> simp [Event.from_body, Event.step?] at h ⊢

theorem counts_add (probe : State) (g : List tt_test) :
    passed_count probe g + failed_count probe g = (g.length : Int) := by
  induction g with
  | nil => rfl
  | cons t g ih =>
    obtain ⟨h1, h2⟩ := counts_cons probe t g
    rw [h1, h2, List.length_cons]
    split_ifs <;> push_cast <;> omega

theorem step_of_summary_event (probe : State) (name : Option CStr) (g : List tt_test) :
    Event.step? (summary_event name (0 + passed_count probe g) (0 + failed_count probe g))
      = some (Step.summary (g.length : Int)) := by
  have h := counts_add probe g
  rw [zero_add, zero_add]
  unfold summary_event
  split_ifs with hf
  · simp only [Event.step?, h]
  · have h0 : failed_count probe g = 0 := by omega
    simp only [Event.step?]
    rw [← h, h0, add_zero]

theorem steps_calls (g : List tt_test) :
    (g.map (fun t => Event.test_call t.name t.test_function)).filterMap Event.step?
      = g.map (fun t => Step.call t.name t.test_function) := by
  induction g with
  | nil => rfl
  | cons t g ih =>
    rw [List.map_cons, List.map_cons, List.filterMap_cons, ih]
    rfl

theorem steps_expected (probe : State) (groups : List (List tt_test)) (file : Option CStr) :
    (expected_events probe groups 0 0 file).filterMap Event.step?
      = (groups.map (fun g => g.map (fun t => Step.call t.name t.test_function)
          ++ [Step.summary (g.length : Int)])).flatten := by
  induction groups generalizing file with
  | nil => rfl
  | cons g gs ih =>
    rw [expected_events, List.filterMap_append, steps_calls,
      List.filterMap_cons_some (step_of_summary_event probe _ g), ih]
    simp

theorem suites_ascending (chain : List tt_test) (h : suite_sorted chain) :
    (suites chain).Pairwise (fun a b => strcmp a b < 0) := by
  unfold suite_sorted at h
  induction chain with
  | nil => exact List.Pairwise.nil
  | cons t rest ih =>
    rw [List.pairwise_cons] at h
    rw [suites, List.pairwise_cons]
    refine ⟨?_, (ih h.2).sublist (List.filter_sublist _)⟩
    intro k hk
    obtain ⟨hk1, hk2⟩ := List.mem_filter.1 hk
    obtain ⟨u, hu, rfl⟩ := mem_suites k rest hk1
    have h1 := h.1 u hu
    have h2 : strcmp u.suite t.suite ≠ 0 := by simpa using hk2
    have h3 := strcmp_swap u.suite t.suite
    omega

theorem summary_count_expected (probe : State) (groups : List (List tt_test))
    (p0 f0 : Int) (file : Option CStr) :
    ((expected_events probe groups p0 f0 file).filterMap Event.summary?).length
      = groups.length := by
  induction groups generalizing p0 f0 file with
  | nil => rfl
  | cons g gs ih =>
    have hs : ∀ name p f, ∃ l, Event.summary? (summary_event name p f) = some l := by
      intro name p f
      unfold summary_event
      split_ifs
      · exact ⟨_, rfl⟩
      · exact ⟨_, rfl⟩
    obtain ⟨l, hl⟩ := hs (file_after g file) (p0 + passed_count probe g)
      (f0 + failed_count probe g)
    rw [expected_events, List.filterMap_append,
      filterMap_test_calls _ (fun _ _ => rfl), List.filterMap_cons_some hl,
      List.nil_append, List.length_cons, ih, List.length_cons]

/-- C6: for a registry built by `tt_register` from the empty one, `tt_run_all` emits as
many summary lines as there are distinct suite strings, and these come in strictly
ascending order in the chain.  Run with the counters at zero, it proceeds suite by suite:
it calls the tests of the suite, then emits one summary, whose counters add up to the
number of tests of that suite; so a summary follows a test exactly when that test is the
last of its suite, which in the sorted chain is when it is the last node or the suite of
the next node differs. -/
theorem one_summary_per_suite (regs : List tt_test) (s : State) (h : s.tt_head = []) :
    (summary_lines (tt_run_all (register_all regs s)).2.trace).length
        = (summary_lines s.trace).length + (suites (register_all regs s).tt_head).length
    ∧ (suites (register_all regs s).tt_head).Pairwise (fun a b => strcmp a b < 0)
    ∧ (s.tt_passes = 0 → s.tt_fails = 0 →
        steps (tt_run_all (register_all regs s)).2.trace
          = steps s.trace
            ++ ((suites (register_all regs s).tt_head).map
                (fun k =>
                  (tests_of k (register_all regs s).tt_head).map
                      (fun t => Step.call t.name t.test_function)
                    ++ [Step.summary
                        ((tests_of k (register_all regs s).tt_head).length : Int)])
                ).flatten) := by
  obtain ⟨f1, f2, f3, _⟩ := register_all_frame regs s
  have hsorted := register_all_sorted regs s h
  refine ⟨?_, suites_ascending _ hsorted, ?_⟩
  · unfold summary_lines
    rw [filterMap_runner_events _ summary_from_body, tt_run_all_events State.initial,
      List.filterMap_append, ← filterMap_runner_events _ summary_from_body, f1,
      List.length_append, summary_count_expected, suite_runs_eq _ hsorted, List.length_map]
  · intro hp hf
    unfold steps
    rw [filterMap_runner_events _ step_from_body, tt_run_all_events State.initial,
      f2.trans hp, f3.trans hf,
      List.filterMap_append, ← filterMap_runner_events _ step_from_body, f1,
      steps_expected, suite_runs_eq _ hsorted, List.map_map]
    rfl

theorem one_summary_per_suite_witness :
    (State.initial.tt_head = [] ∧ State.initial.tt_passes = 0 ∧ State.initial.tt_fails = 0)
    ∧ steps (tt_run_all (register_all [test_c, test_a, test_b] State.initial)).2.trace
        = steps State.initial.trace
          ++ ((suites (register_all [test_c, test_a, test_b] State.initial).tt_head).map
              (fun k =>
                (tests_of k (register_all [test_c, test_a, test_b] State.initial).tt_head).map
                    (fun t => Step.call t.name t.test_function)
                  ++ [Step.summary
                      ((tests_of k
                        (register_all [test_c, test_a, test_b] State.initial).tt_head).length
                        : Int)])
              ).flatten :=
  ⟨⟨rfl, rfl, rfl⟩,
   (one_summary_per_suite [test_c, test_a, test_b] State.initial rfl).2.2 rfl rfl⟩

/-! ## The name on the summary line -/

theorem name_from_body (e : Event) (h : Event.from_body e = true) :
    Event.summary_name? e = none := by
  cases e <;> simp [Event.from_body, Event.summary_name?] at h ⊢

theorem name_of_summary_event (name : Option CStr) (p f : Int) :
    Event.summary_name? (summary_event name p f) = some name := by
  unfold summary_event
  split_ifs <;> rfl

theorem file_after_test_own (t : tt_test)
    (ht : ∀ u : State, (t.test_function.exec u).tt_current_file = some t.suite)
    (file : Option CStr) : file_after_test t file = some t.suite := by
  unfold file_after_test tt_execute
  simp only []
  split_ifs <;> exact ht _

theorem file_after_own (g : List tt_test) (t : tt_test) (hlast : g.getLast? = some t)
    (ht : ∀ u : State, (t.test_function.exec u).tt_current_file = some t.suite)
    (file : Option CStr) : file_after g file = some t.suite := by
  induction g generalizing file with
  | nil => simp at hlast
  | cons x g ih =>
    cases g with
    | nil =>
      have hx : x = t := by simpa using hlast
      subst hx
      exact file_after_test_own x ht file
    | cons x2 g2 =>
      have e : file_after (x :: x2 :: g2) file
          = file_after (x2 :: g2) (file_after_test x file) := rfl
      rw [e]
      apply ih
      rw [← hlast, List.getLast?_cons_cons]

theorem names_expected (probe : State) (groups : List (List tt_test)) (p0 f0 : Int)
    (file : Option CStr) (hne : ∀ g ∈ groups, g ≠ [])
    (hg : ∀ g ∈ groups, ∀ t, g.getLast? = some t → ∀ u : State,
      (t.test_function.exec u).tt_current_file = some t.suite) :
    (expected_events probe groups p0 f0 file).filterMap Event.summary_name?
      = groups.map (fun g => g.getLast?.map tt_test.suite) := by
  induction groups generalizing p0 f0 file with
  | nil => rfl
  | cons g gs ih =>
    have hgne := hne g (List.mem_cons_self _ _)
    have hl := List.getLast?_eq_getLast g hgne
    rw [expected_events, List.filterMap_append,
      filterMap_test_calls _ (fun _ _ => rfl),
      List.filterMap_cons_some (name_of_summary_event _ _ _),
      ih _ _ _ (fun x hx => hne x (List.mem_cons_of_mem _ hx))
        (fun x hx => hg x (List.mem_cons_of_mem _ hx)),
      file_after_own g _ hl (hg g (List.mem_cons_self _ _) _ hl), List.map_cons, hl]
    rfl

theorem suite_runs_ne_nil (chain : List tt_test) : ∀ g ∈ suite_runs chain, g ≠ [] := by
  induction chain with
  | nil => intro g hg; simp [suite_runs] at hg
  | cons t rest ih =>
    cases rest with
    | nil =>
      intro g hg
      simp only [suite_runs, List.mem_singleton] at hg
      rw [hg]
      exact List.cons_ne_nil _ _
    | cons next rest =>
      obtain ⟨g0, gs, h⟩ := suite_runs_cons next rest
      rw [h] at ih
      intro g hg
      simp only [suite_runs, h] at hg
      split_ifs at hg
      · rcases List.mem_cons.1 hg with rfl | hg
        · exact List.cons_ne_nil _ _
        · exact ih g hg
      · rcases List.mem_cons.1 hg with rfl | hg
        · exact List.cons_ne_nil _ _
        · exact ih g (List.mem_cons_of_mem _ hg)

theorem tests_of_suite_last (chain : List tt_test) (k : CStr) (hk : k ∈ suites chain) :
    ∃ t, (tests_of k chain).getLast? = some t ∧ t ∈ chain ∧ strcmp t.suite k = 0 := by
  obtain ⟨u, hu, rfl⟩ := mem_suites k chain hk
  have hmem : u ∈ tests_of u.suite chain :=
    List.mem_filter.2 ⟨hu, by simp [same_suite, strcmp_self]⟩
  have hne : tests_of u.suite chain ≠ [] := List.ne_nil_of_mem hmem
  refine ⟨(tests_of u.suite chain).getLast hne, List.getLast?_eq_getLast _ hne, ?_, ?_⟩
  · exact (List.mem_filter.1 (List.getLast_mem hne)).1
  · simpa [same_suite] using (List.mem_filter.1 (List.getLast_mem hne)).2

/-- C7 (as the code has it): the name between the brackets of a summary line is
`tt_current_file`.  For a registry built by `tt_register` from the empty one in which the
test executed last in each suite leaves
`tt_current_file` equal to its own suite string (its last `tt_assert` call is made with
that string as file, as for a `TEST` whose assertions stand in the defining file), the
names printed are, suite by suite, the suite string of that test, which is a registered
test whose suite string compares equal to the suite under `strcmp`. -/
theorem summary_name_is_suite (regs : List tt_test) (s : State) (h : s.tt_head = [])
    (hfile : ∀ k ∈ suites (register_all regs s).tt_head, ∀ t,
      (tests_of k (register_all regs s).tt_head).getLast? = some t →
      ∀ u : State, (t.test_function.exec u).tt_current_file = some t.suite) :
    summary_names (tt_run_all (register_all regs s)).2.trace
        = summary_names s.trace
          ++ (suites (register_all regs s).tt_head).map
              (fun k => (tests_of k (register_all regs s).tt_head).getLast?.map tt_test.suite)
    ∧ ∀ k ∈ suites (register_all regs s).tt_head,
        ∃ t, (tests_of k (register_all regs s).tt_head).getLast? = some t
          ∧ t ∈ regs ∧ strcmp t.suite k = 0 := by
  obtain ⟨f1, _, _, _⟩ := register_all_frame regs s
  have hsorted := register_all_sorted regs s h
  have hmem : ∀ t, t ∈ (register_all regs s).tt_head → t ∈ regs := by
    intro t ht
    rw [mem_register_all, h] at ht
    simpa using ht
  have hruns := suite_runs_eq _ hsorted
  refine ⟨?_, ?_⟩
  · unfold summary_names
    rw [filterMap_runner_events _ name_from_body, tt_run_all_events State.initial,
      List.filterMap_append, ← filterMap_runner_events _ name_from_body, f1,
      names_expected _ _ _ _ _ (suite_runs_ne_nil _), hruns, List.map_map]
    · rfl
    · intro g hg t ht
      rw [hruns] at hg
      obtain ⟨k, hk, rfl⟩ := List.mem_map.1 hg
      exact hfile k hk t ht
  · intro k hk
    obtain ⟨t, h1, h2, h3⟩ := tests_of_suite_last _ k hk
    exact ⟨t, h1, hmem t h2, h3⟩

theorem summary_name_is_suite_witness :
    (State.initial.tt_head = []
      ∧ ∀ k ∈ suites (register_all [test_c, test_a, test_b] State.initial).tt_head, ∀ t,
          (tests_of k (register_all [test_c, test_a, test_b] State.initial).tt_head).getLast?
            = some t →
          ∀ u : State, (t.test_function.exec u).tt_current_file = some t.suite)
    ∧ summary_names (tt_run_all (register_all [test_c, test_a, test_b] State.initial)).2.trace
        = summary_names State.initial.trace
          ++ (suites (register_all [test_c, test_a, test_b] State.initial).tt_head).map
              (fun k => (tests_of k
                (register_all [test_c, test_a, test_b] State.initial).tt_head).getLast?.map
                  tt_test.suite) :=
  ⟨⟨rfl, by
      intro k hk t ht u
      have hk2 : k = "S1" ∨ k = "S2" := by
        have e : suites (register_all [test_c, test_a, test_b] State.initial).tt_head
            = ["S1", "S2"] := by decide
        rw [e] at hk
        simpa using hk
      rcases hk2 with rfl | rfl
      · have e : (tests_of "S1"
            (register_all [test_c, test_a, test_b] State.initial).tt_head).getLast?
            = some test_a := by decide
        rw [e] at ht
        cases ht
        rfl
      · have e : (tests_of "S2"
            (register_all [test_c, test_a, test_b] State.initial).tt_head).getLast?
            = some test_c := by decide
        rw [e] at ht
        cases ht
        rfl⟩,
   (summary_name_is_suite [test_c, test_a, test_b] State.initial rfl (by
      intro k hk t ht u
      have hk2 : k = "S1" ∨ k = "S2" := by
        have e : suites (register_all [test_c, test_a, test_b] State.initial).tt_head
            = ["S1", "S2"] := by decide
        rw [e] at hk
        simpa using hk
      rcases hk2 with rfl | rfl
      · have e : (tests_of "S1"
            (register_all [test_c, test_a, test_b] State.initial).tt_head).getLast?
            = some test_a := by decide
        rw [e] at ht
        cases ht
        rfl
      · have e : (tests_of "S2"
            (register_all [test_c, test_a, test_b] State.initial).tt_head).getLast?
            = some test_c := by decide
        rw [e] at ht
        cases ht
        rfl)).1⟩

/-- C7 fails as stated: `test_elsewhere`, of suite `a.c`, asserts in `helper.h`, and
`test_empty`, of suite `b.c`, makes no assertion; the summary of suite `a.c` is printed
with the name `helper.h`, and so is the summary of suite `b.c`.  A registry holding
`test_empty` alone has its summary printed with the NULL `tt_current_file`. -/
theorem summary_name_not_suite :
    summary_names (tt_run_all (register_all [test_elsewhere, test_empty] State.initial)).2.trace
        = [some "helper.h", some "helper.h"]
    ∧ suites (register_all [test_elsewhere, test_empty] State.initial).tt_head
        = ["a.c", "b.c"]
    ∧ summary_names (tt_run_all (register_all [test_elsewhere, test_empty] State.initial)).2.trace
        ≠ (suites (register_all [test_elsewhere, test_empty] State.initial).tt_head).map some
    ∧ summary_names (tt_run_all (register_all [test_empty] State.initial)).2.trace = [none] := by
  decide

/-! ## Isolation -/

/-- C8: what `tt_execute` tallies for a test does not depend on the state left by the
tests before it.  For any two prior states, executing the same test body leaves the same
failure flag and increments the same counter: the change of `tt_fails` is the same in
both runs, the change of `tt_passes` is the same in both runs, and in each run exactly one
of the two counters goes up, by one. -/
theorem isolation (name : CStr) (f : TestBody) (s1 s2 : State) :
    (tt_execute name f s1).tt_current_test_failed
        = (tt_execute name f s2).tt_current_test_failed
    ∧ (tt_execute name f s1).tt_fails - s1.tt_fails
        = (tt_execute name f s2).tt_fails - s2.tt_fails
    ∧ (tt_execute name f s1).tt_passes - s1.tt_passes
        = (tt_execute name f s2).tt_passes - s2.tt_passes
    ∧ (((tt_execute name f s1).tt_fails - s1.tt_fails = 1
          ∧ (tt_execute name f s1).tt_passes - s1.tt_passes = 0)
        ∨ ((tt_execute name f s1).tt_fails - s1.tt_fails = 0
          ∧ (tt_execute name f s1).tt_passes - s1.tt_passes = 1)) := by
  have h1 := tt_execute_counters { test_function := f, name := name, suite := "" } s2 s1
  have h2 := tt_execute_counters { test_function := f, name := name, suite := "" } s2 s2
  simp only [] at h1 h2
  refine ⟨tt_execute_flag name f s1 s2, ?_, ?_, ?_⟩
  · rw [h1.1, h2.1]; omega
  · rw [h1.2, h2.2]; omega
  · rw [h1.1, h1.2]
    split_ifs
    · left; omega
    · right; omega

/-! ## No test aborts the run -/

theorem tests_of_summary_line (probe : State) (g : List tt_test) :
    (summary_line probe g).tests = (g.length : Int) := by
  have h := counts_add probe g
  unfold summary_line
  split_ifs with hf
  · exact h
  · have h0 : failed_count probe g = 0 := by omega
    show passed_count probe g = _
    omega

theorem sum_tests_runs (probe : State) (groups : List (List tt_test)) :
    ((groups.map (summary_line probe)).map SummaryLine.tests).sum
      = (groups.flatten.length : Int) := by
  induction groups with
  | nil => rfl
  | cons g gs ih =>
    rw [List.map_cons, List.map_cons, List.sum_cons, ih, tests_of_summary_line,
      List.flatten_cons, List.length_append]
    push_cast
    rfl

/-- C9: a failing test never aborts the run.  For every registry, `tt_run_all` calls the
test function of every node exactly once, in chain order, whatever the tests do; and when
the counters are zero at the start, as at program start, the numbers of tests (passed
plus failed) of the summaries it emits add up to the number of registered tests. -/
theorem run_never_aborted (s : State) :
    test_calls (tt_run_all s).2.trace = test_calls s.trace ++ s.tt_head.map tt_test.call
    ∧ (s.tt_passes = 0 → s.tt_fails = 0 →
        ∃ lines, summary_lines (tt_run_all s).2.trace = summary_lines s.trace ++ lines
          ∧ (lines.map SummaryLine.tests).sum = (s.tt_head.length : Int)) := by
  refine ⟨tt_run_all_calls s, ?_⟩
  intro hp hf
  refine ⟨_, tt_run_all_summary_lines State.initial s hp hf, ?_⟩
  rw [sum_tests_runs, suite_runs_join]

theorem run_never_aborted_witness :
    ((register_all [test_a, test_b, test_c] State.initial).tt_passes = 0
      ∧ (register_all [test_a, test_b, test_c] State.initial).tt_fails = 0)
    ∧ ∃ lines,
        summary_lines (tt_run_all (register_all [test_a, test_b, test_c] State.initial)).2.trace
          = summary_lines (register_all [test_a, test_b, test_c] State.initial).trace ++ lines
        ∧ (lines.map SummaryLine.tests).sum
          = ((register_all [test_a, test_b, test_c] State.initial).tt_head.length : Int) :=
  ⟨⟨rfl, rfl⟩,
   (run_never_aborted (register_all [test_a, test_b, test_c] State.initial)).2 rfl rfl⟩

/-! ## Drain -/

theorem drain_nil (chain : List tt_test) : tt_run_all.drain chain = [] := by
  induction chain with
  | nil => rfl
  | cons t rest ih => exact ih

theorem tt_run_all_empty (s : State) (h : s.tt_head = []) : tt_run_all s = (0, s) := by
  cases s
  simp only [] at h
  subst h
  rfl

/-- C10: after `tt_run_all` returns the registry is empty, whatever it held; and a second
`tt_run_all` on the state the first one leaves returns 0 and leaves that state as it is:
it calls no test, prints nothing and the registry stays empty. -/
theorem drain_idempotent (s : State) :
    (tt_run_all s).2.tt_head = []
    ∧ tt_run_all (tt_run_all s).2 = (0, (tt_run_all s).2)
    ∧ (tt_run_all (tt_run_all s).2).1 = 0
    ∧ (tt_run_all (tt_run_all s).2).2.tt_head = []
    ∧ (tt_run_all (tt_run_all s).2).2.trace = (tt_run_all s).2.trace := by
  have h : (tt_run_all s).2.tt_head = [] := drain_nil _
  have e := tt_run_all_empty (tt_run_all s).2 h
  refine ⟨h, e, ?_, ?_, ?_⟩
  · rw [e]
  · rw [e]; exact h
  · rw [e]

/-! ## The diagnostic line -/

theorem output_append (a b : List Event) : output (a ++ b) = output a ++ output b := by
  simp [output]

theorem tt_assert_output (file : CStr) (line : Int) (msg expression : CStr) (pass : Int)
    (s : State) (test : CStr) (ht : s.tt_current_test = some test) :
    ∃ es, (tt_assert file line msg expression pass s).2.trace = s.trace ++ es
      ∧ output es = es.filterMap (Event.diagnostic? test)
      ∧ output es
        = if pass = 0 then [diagnostic_line file line test msg expression] else [] := by
  unfold tt_assert
  split_ifs with hpass
  · refine ⟨[Event.assert_call file line msg expression pass,
      Event.print_failure file line s.tt_current_test (some msg) (some expression)],
      by simp, ?_, ?_⟩
    · simp [output, Event.printed?, Event.diagnostic?, diagnostic_line, printf_ptr, ht, hpass]
    · simp [output, Event.printed?, diagnostic_line, printf_ptr, ht]
  · refine ⟨[Event.assert_call file line msg expression pass], by simp, ?_, ?_⟩
    · simp [output, Event.printed?, Event.diagnostic?, hpass]
    · simp [output, Event.printed?]

theorem exec_output (b : TestBody) (s : State) (test : CStr)
    (ht : s.tt_current_test = some test) :
    ∃ es, (b.exec s).trace = s.trace ++ es
      ∧ output es = es.filterMap (Event.diagnostic? test) := by
  induction b generalizing s with
  | ret => exact ⟨[], by simp [TestBody.exec], rfl⟩
  | TT_ASSERT file line msg expression evaluated rest ih =>
    rw [exec_TT_ASSERT]
    generalize (if evaluated ≠ 0 then (1 : Int) else 0) = pass
    obtain ⟨es, h1, h2, _⟩ := tt_assert_output file line msg expression pass s test ht
    split_ifs
    · exact ⟨es, h1, h2⟩
    · have ht2 : (tt_assert file line msg expression pass s).2.tt_current_test = some test :=
        (tt_assert_frame file line msg expression pass s).2.2.2.1.trans ht
      obtain ⟨es2, h3, h4⟩ := ih (tt_assert file line msg expression pass s).2 ht2
      refine ⟨es ++ es2, by rw [h3, h1, List.append_assoc], ?_⟩
      rw [output_append, List.filterMap_append, h2, h4]
  | call helper rest ih1 ih2 =>
    obtain ⟨es, h1, h2⟩ := ih1 s ht
    have ht2 : (helper.exec s).tt_current_test = some test :=
      (exec_frame helper s).2.2.2.trans ht
    obtain ⟨es2, h3, h4⟩ := ih2 (helper.exec s) ht2
    simp only [TestBody.exec]
    refine ⟨es ++ es2, by rw [h3, h1, List.append_assoc], ?_⟩
    rw [output_append, List.filterMap_append, h2, h4]

theorem tt_execute_new_events (name : CStr) (f : TestBody) (s : State) :
    ∃ es, (tt_execute name f s).trace.drop s.trace.length = Event.test_call name f :: es
      ∧ (f.exec { s with tt_current_test_failed := 0, tt_current_test := some name,
                         trace := s.trace ++ [Event.test_call name f] }).trace
          = (s.trace ++ [Event.test_call name f]) ++ es := by
  obtain ⟨es, h1, _⟩ := exec_trace f
    { s with tt_current_test_failed := 0, tt_current_test := some name,
             trace := s.trace ++ [Event.test_call name f] }
  refine ⟨es, ?_, h1⟩
  have e : (tt_execute name f s).trace = s.trace ++ Event.test_call name f :: es := by
    unfold tt_execute
    simp only [] at h1 ⊢
    split_ifs <;> simp [h1]
  rw [e, List.drop_left]

/-- C11: `tt_assert` writes a diagnostic line exactly when its `pass` argument is 0, and
the line is then `<file>:<line>: In test <test_name>:`, a line break, four blanks,
`<message> (<expression_text>)` and a line break, made of the arguments of the call and
of the current test name; a passing assertion writes nothing.  While `tt_execute` runs a
test, the current test name is the name it was given: what the test writes is, call by
call of `tt_assert`, that line with the name of the test for a call with `pass` 0 and
nothing for the others. -/
theorem diagnostic_on_failure :
    (∀ (file : CStr) (line : Int) (msg expression : CStr) (pass : Int) (s : State)
        (test : CStr), s.tt_current_test = some test →
      output (tt_assert file line msg expression pass s).2.trace
        = output s.trace
          ++ (if pass = 0 then
                [printf_s file ++ ":" ++ printf_d line ++ ": In test " ++ printf_s test
                  ++ ":\n    " ++ printf_s msg ++ " (" ++ printf_s expression ++ ")\n"]
              else []))
    ∧ (∀ (name : CStr) (f : TestBody) (s : State),
      output ((tt_execute name f s).trace.drop s.trace.length)
        = ((tt_execute name f s).trace.drop s.trace.length).filterMap
            (Event.diagnostic? name)) := by
  refine ⟨?_, ?_⟩
  · intro file line msg expression pass s test ht
    obtain ⟨es, h1, _, h3⟩ := tt_assert_output file line msg expression pass s test ht
    rw [h1, output_append, h3]
    rfl
  · intro name f s
    obtain ⟨es, h1, h3⟩ := tt_execute_new_events name f s
    obtain ⟨es2, h4, h5⟩ := exec_output f
      { s with tt_current_test_failed := 0, tt_current_test := some name,
               trace := s.trace ++ [Event.test_call name f] } name rfl
    have hes : es2 = es := List.append_cancel_left (h4.symm.trans h3)
    subst hes
    rw [h1]
    show output ([Event.test_call name f] ++ es2) = _
    rw [output_append, h5]
    rfl

theorem diagnostic_on_failure_witness :
    ({ State.initial with tt_current_test := some "test_b" } : State).tt_current_test
        = some "test_b"
    ∧ output (tt_assert "t.c" 8 "2+2 is 5" "2+2==5" 0
          { State.initial with tt_current_test := some "test_b" }).2.trace
        = output ({ State.initial with tt_current_test := some "test_b" } : State).trace
          ++ (if (0 : Int) = 0 then
                [printf_s "t.c" ++ ":" ++ printf_d 8 ++ ": In test " ++ printf_s "test_b"
                  ++ ":\n    " ++ printf_s "2+2 is 5" ++ " (" ++ printf_s "2+2==5" ++ ")\n"]
              else []) :=
  ⟨rfl, diagnostic_on_failure.1 "t.c" 8 "2+2 is 5" "2+2==5" 0
    { State.initial with tt_current_test := some "test_b" } "test_b" rfl⟩

/-! ## The insertion point -/

theorem link_take_drop (t : tt_test) (chain : List tt_test) :
    tt_register.link t chain
      = chain.takeWhile (scans_past t) ++ t :: chain.dropWhile (scans_past t) := by
  induction chain with
  | nil => rfl
  | cons a l ih =>
    by_cases h : strcmp a.suite t.suite < 0
    · simp [tt_register.link, List.takeWhile_cons, List.dropWhile_cons, scans_past, h]
      simpa [scans_past] using ih
    · simp [tt_register.link, List.takeWhile_cons, List.dropWhile_cons, scans_past, h]

/-- C12: `tt_register` turns the chain `L` into the longest prefix of `L` whose suites
are strictly below the new suite under `strcmp`, then the new node, then the rest of `L`.
Every node of that prefix compares below the new suite and the node that follows the new
one, if there is one, does not; the first node of the chain (`tt_head`) is the new node
when the prefix is empty and stays the old first node when it is not. -/
theorem insertion_point (name suite : CStr) (f : TestBody) (s : State) :
    (tt_register name suite f s).tt_head
        = s.tt_head.takeWhile (scans_past { test_function := f, name := name, suite := suite })
          ++ { test_function := f, name := name, suite := suite }
          :: s.tt_head.dropWhile
              (scans_past { test_function := f, name := name, suite := suite })
    ∧ (∀ n ∈ s.tt_head.takeWhile
          (scans_past { test_function := f, name := name, suite := suite }),
        strcmp n.suite suite < 0)
    ∧ (∀ n, (s.tt_head.dropWhile
          (scans_past { test_function := f, name := name, suite := suite })).head? = some n →
        0 ≤ strcmp n.suite suite)
    ∧ (s.tt_head.takeWhile (scans_past { test_function := f, name := name, suite := suite })
          = [] →
        (tt_register name suite f s).tt_head.head?
          = some { test_function := f, name := name, suite := suite })
    ∧ (s.tt_head.takeWhile (scans_past { test_function := f, name := name, suite := suite })
          ≠ [] →
        (tt_register name suite f s).tt_head.head? = s.tt_head.head?) := by
  have e : (tt_register name suite f s).tt_head
      = s.tt_head.takeWhile (scans_past { test_function := f, name := name, suite := suite })
        ++ { test_function := f, name := name, suite := suite }
        :: s.tt_head.dropWhile
            (scans_past { test_function := f, name := name, suite := suite }) :=
    link_take_drop _ _
  refine ⟨e, ?_, ?_, ?_, ?_⟩
  · intro n hn
    have := List.mem_takeWhile_imp hn
    simpa [scans_past] using this
  · intro n hn
    have h1 := List.head?_dropWhile_not
      (scans_past { test_function := f, name := name, suite := suite }) s.tt_head
    rw [hn] at h1
    simp only [scans_past] at h1
    have h2 : ¬ strcmp n.suite suite < 0 := by simpa using h1
    omega
  · intro h
    rw [e, h]
    rfl
  · intro h
    rw [e]
    cases hs : s.tt_head with
    | nil => rw [hs] at h; simp at h
    | cons a l =>
      rw [hs] at h
      by_cases ha : scans_past { test_function := f, name := name, suite := suite } a = true
      · simp [List.takeWhile_cons, ha]
      · simp [List.takeWhile_cons, ha] at h

theorem insertion_point_witness :
    (({ State.initial with tt_head := [test_a, test_c] } : State).tt_head.takeWhile
        (scans_past { test_function := .ret, name := "t", suite := "S1x" }) ≠ [])
    ∧ (tt_register "t" "S1x" .ret
          { State.initial with tt_head := [test_a, test_c] }).tt_head.head?
        = ({ State.initial with tt_head := [test_a, test_c] } : State).tt_head.head? :=
  ⟨by decide,
   (insertion_point "t" "S1x" .ret
      { State.initial with tt_head := [test_a, test_c] }).2.2.2.2 (by decide)⟩

/-! ## `tt_report` and the counters -/

/-- C13: `tt_report` returns -1 when `tt_fails` is not zero on entry and 0 when it is;
for a fail counter that is not negative, that is -1 exactly when the counter is above
zero.  On both branches it leaves `tt_passes` and `tt_fails` at 0.  No other operation
resets a counter: `tt_register`, `tt_assert` and the body of a test leave both as they
are, `tt_execute` adds one to one of them and leaves the other, and `tt_run_all` on an
empty registry, where it makes no report, leaves both as they are. -/
theorem report_resets_counters (s : State) :
    (tt_report s).1 = (if s.tt_fails ≠ 0 then -1 else 0)
    ∧ (0 ≤ s.tt_fails →
        ((tt_report s).1 ≠ 0 ↔ 0 < s.tt_fails)
        ∧ ((tt_report s).1 = -1 ↔ 0 < s.tt_fails)
        ∧ ((tt_report s).1 = 0 ↔ ¬ 0 < s.tt_fails))
    ∧ (tt_report s).2.tt_passes = 0 ∧ (tt_report s).2.tt_fails = 0
    ∧ (∀ (name suite : CStr) (f : TestBody),
        (tt_register name suite f s).tt_passes = s.tt_passes
        ∧ (tt_register name suite f s).tt_fails = s.tt_fails)
    ∧ (∀ (file : CStr) (line : Int) (msg expression : CStr) (pass : Int),
        (tt_assert file line msg expression pass s).2.tt_passes = s.tt_passes
        ∧ (tt_assert file line msg expression pass s).2.tt_fails = s.tt_fails)
    ∧ (∀ b : TestBody,
        (b.exec s).tt_passes = s.tt_passes ∧ (b.exec s).tt_fails = s.tt_fails)
    ∧ (∀ (name : CStr) (f : TestBody),
        ((tt_execute name f s).tt_passes = s.tt_passes + 1
          ∧ (tt_execute name f s).tt_fails = s.tt_fails)
        ∨ ((tt_execute name f s).tt_passes = s.tt_passes
          ∧ (tt_execute name f s).tt_fails = s.tt_fails + 1))
    ∧ (s.tt_head = [] →
        (tt_run_all s).2.tt_passes = s.tt_passes ∧ (tt_run_all s).2.tt_fails = s.tt_fails) := by
  obtain ⟨r1, r2, r3, _⟩ := tt_report_spec s
  refine ⟨r1, ?_, r2, r3, ?_, ?_, ?_, ?_, ?_⟩
  · intro hnn
    rw [r1]
    by_cases hz : s.tt_fails = 0
    · simp [hz]
    · have hpos : 0 < s.tt_fails := by omega
      simp [hz, hpos]
  · intro name suite f
    exact ⟨rfl, rfl⟩
  · intro file line msg expression pass
    have h := tt_assert_frame file line msg expression pass s
    exact ⟨h.2.1, h.2.2.1⟩
  · intro b
    have h := exec_frame b s
    exact ⟨h.2.1, h.2.2.1⟩
  · intro name f
    have h := tt_execute_counters { test_function := f, name := name, suite := "" } s s
    simp only [] at h
    rw [h.1, h.2]
    split_ifs
    · right; omega
    · left; omega
  · intro hh
    rw [tt_run_all_empty s hh]
    exact ⟨rfl, rfl⟩

theorem report_resets_counters_witness :
    (0 ≤ ({ State.initial with tt_passes := 1, tt_fails := 1 } : State).tt_fails)
    ∧ ((tt_report { State.initial with tt_passes := 1, tt_fails := 1 }).1 = -1
        ↔ 0 < ({ State.initial with tt_passes := 1, tt_fails := 1 } : State).tt_fails) :=
  ⟨by decide,
   ((report_resets_counters { State.initial with tt_passes := 1, tt_fails := 1 }).2.1
      (by decide)).2.1⟩

/-! ## The effect of `tt_assert` -/

/-- C14: after `tt_assert(file, line, msg, expression, pass)` the execution state holds
these `msg`, `expression`, `file` and `line`, the failure flag is 1 when `pass` is 0 and 0
otherwise, the value returned is `pass`, and the two counters, the current test name and
the registry are as before. -/
theorem tt_assert_effect (file : CStr) (line : Int) (msg expression : CStr) (pass : Int)
    (s : State) :
    (tt_assert file line msg expression pass s).2.tt_current_msg = some msg
    ∧ (tt_assert file line msg expression pass s).2.tt_current_expression = some expression
    ∧ (tt_assert file line msg expression pass s).2.tt_current_file = some file
    ∧ (tt_assert file line msg expression pass s).2.tt_current_line = line
    ∧ (tt_assert file line msg expression pass s).2.tt_current_test_failed
        = (if pass = 0 then 1 else 0)
    ∧ (tt_assert file line msg expression pass s).1 = pass
    ∧ (tt_assert file line msg expression pass s).2.tt_passes = s.tt_passes
    ∧ (tt_assert file line msg expression pass s).2.tt_fails = s.tt_fails
    ∧ (tt_assert file line msg expression pass s).2.tt_current_test = s.tt_current_test
    ∧ (tt_assert file line msg expression pass s).2.tt_head = s.tt_head := by
  unfold tt_assert
  split_ifs <;> simp

/-! ## The tally follows the last assertion -/

theorem pass_values_append (a b : List Event) :
    pass_values (a ++ b) = pass_values a ++ pass_values b := by
  simp [pass_values]

theorem flag_after_append (l1 l2 : List Int) (flag : Int) :
    flag_after (l1 ++ l2) flag = flag_after l2 (flag_after l1 flag) := by
  unfold flag_after
  rw [List.getLast?_append]
  cases l2.getLast? <;> cases l1.getLast? <;> rfl

theorem tt_assert_last (file : CStr) (line : Int) (msg expression : CStr) (pass : Int)
    (s : State) :
    ∃ es, (tt_assert file line msg expression pass s).2.trace = s.trace ++ es
      ∧ pass_values es = [pass] := by
  unfold tt_assert
  split_ifs
  · exact ⟨[Event.assert_call file line msg expression pass,
      Event.print_failure file line s.tt_current_test (some msg) (some expression)],
      by simp, rfl⟩
  · exact ⟨[Event.assert_call file line msg expression pass], by simp, rfl⟩

theorem exec_last (b : TestBody) (s : State) :
    ∃ es, (b.exec s).trace = s.trace ++ es
      ∧ (b.exec s).tt_current_test_failed
          = flag_after (pass_values es) s.tt_current_test_failed := by
  induction b generalizing s with
  | ret => exact ⟨[], by simp [TestBody.exec], rfl⟩
  | TT_ASSERT file line msg expression evaluated rest ih =>
    rw [exec_TT_ASSERT]
    generalize (if evaluated ≠ 0 then (1 : Int) else 0) = pass
    obtain ⟨es, h1, h2⟩ := tt_assert_last file line msg expression pass s
    have hflag := tt_assert_flag file line msg expression pass s
    have hone : flag_after (pass_values es) s.tt_current_test_failed
        = if pass = 0 then 1 else 0 := by
      rw [h2]
      rfl
    split_ifs with hp
    · exact ⟨es, h1, by rw [hflag, hone]⟩
    · obtain ⟨es2, h3, h4⟩ := ih (tt_assert file line msg expression pass s).2
      refine ⟨es ++ es2, by rw [h3, h1, List.append_assoc], ?_⟩
      rw [h4, pass_values_append, flag_after_append, hflag, hone]
  | call helper rest ih1 ih2 =>
    obtain ⟨es, h1, h2⟩ := ih1 s
    obtain ⟨es2, h3, h4⟩ := ih2 (helper.exec s)
    simp only [TestBody.exec]
    refine ⟨es ++ es2, by rw [h3, h1, List.append_assoc], ?_⟩
    rw [h4, h2, pass_values_append, flag_after_append]

theorem flag_after_zero (l : List Int) : flag_after l 0 ≠ 0 ↔ l.getLast? = some 0 := by
  unfold flag_after
  cases h : l.getLast? with
  | none => simp
  | some p =>
    by_cases hp : p = 0
    · simp [hp]
    · simp [hp]

/-- C15: `tt_execute` tallies a test by the last `tt_assert` call made during it.  With
the `pass` arguments of the calls the test makes listed in order, `tt_fails` goes up by
one and `tt_passes` stays if the list is not empty and ends in 0; otherwise (no call at
all, or a last call that passed, whatever failed before it) `tt_passes` goes up by one
and `tt_fails` stays. -/
theorem tally_follows_last_assert (name : CStr) (f : TestBody) (s : State) :
    ((pass_values ((tt_execute name f s).trace.drop s.trace.length)).getLast? = some 0 →
      (tt_execute name f s).tt_fails = s.tt_fails + 1
      ∧ (tt_execute name f s).tt_passes = s.tt_passes)
    ∧ ((pass_values ((tt_execute name f s).trace.drop s.trace.length)).getLast? ≠ some 0 →
      (tt_execute name f s).tt_passes = s.tt_passes + 1
      ∧ (tt_execute name f s).tt_fails = s.tt_fails) := by
  obtain ⟨es, h1, h3⟩ := tt_execute_new_events name f s
  obtain ⟨es2, h4, h5⟩ := exec_last f
    { s with tt_current_test_failed := 0, tt_current_test := some name,
             trace := s.trace ++ [Event.test_call name f] }
  have hes : es2 = es := List.append_cancel_left (h4.symm.trans h3)
  subst hes
  have hpv : pass_values ((tt_execute name f s).trace.drop s.trace.length)
      = pass_values es2 := by
    rw [h1]
    rfl
  have hfr := exec_frame f
    { s with tt_current_test_failed := 0, tt_current_test := some name,
             trace := s.trace ++ [Event.test_call name f] }
  have hz := flag_after_zero (pass_values es2)
  rw [hpv]
  simp only [] at h5 hfr
  unfold tt_execute
  simp only []
  constructor
  · intro hlast
    have hne := hz.2 hlast
    rw [← h5] at hne
    rw [if_pos hne]
    exact ⟨by simp [hfr.2.2.1], by simp [hfr.2.1]⟩
  · intro hlast
    have hne : ¬ flag_after (pass_values es2) 0 ≠ 0 := fun h => hlast (hz.1 h)
    rw [← h5] at hne
    rw [if_neg hne]
    exact ⟨by simp [hfr.2.1], by simp [hfr.2.2.1]⟩

theorem tally_follows_last_assert_witness :
    ((pass_values ((tt_execute test_helper.name test_helper.test_function
          State.initial).trace.drop State.initial.trace.length)) = [0, 1]
      ∧ (pass_values ((tt_execute test_helper.name test_helper.test_function
          State.initial).trace.drop State.initial.trace.length)).getLast? ≠ some 0)
    ∧ ((tt_execute test_helper.name test_helper.test_function State.initial).tt_passes
        = State.initial.tt_passes + 1
      ∧ (tt_execute test_helper.name test_helper.test_function State.initial).tt_fails
        = State.initial.tt_fails) :=
  ⟨⟨by decide, by decide⟩,
   (tally_follows_last_assert test_helper.name test_helper.test_function State.initial).2
     (by decide)⟩

/-! ## Registration keeps the entries -/

theorem link_perm (t : tt_test) (chain : List tt_test) :
    List.Perm (tt_register.link t chain) (t :: chain) := by
  rw [link_take_drop]
  have h := List.takeWhile_append_dropWhile (scans_past t) chain
  have h2 : List.Perm (chain.takeWhile (scans_past t) ++ t :: chain.dropWhile (scans_past t))
      (t :: (chain.takeWhile (scans_past t) ++ chain.dropWhile (scans_past t))) :=
    List.perm_middle
  rw [h] at h2
  exact h2

theorem foldl_link_perm (tests chain : List tt_test) :
    List.Perm (tests.foldl (fun chain t => tt_register.link t chain) chain)
      (tests ++ chain) := by
  induction tests generalizing chain with
  | nil => exact List.Perm.refl _
  | cons t ts ih =>
    rw [List.foldl_cons]
    refine (ih _).trans ?_
    refine ((link_perm t chain).append_left ts).trans ?_
    exact List.perm_middle

/-- C16: `tt_register` neither loses, duplicates nor reorders entries.  The chain after
the call is one node longer; it holds the new node at the position given by the number of
nodes the scan moved past, and removing the node at that position gives back the chain as
it was before, node for node.  Hence registering a list of tests from the empty registry
yields a chain that is a permutation of that list, repeated entries included. -/
theorem registration_keeps_entries (name suite : CStr) (f : TestBody) (s : State) :
    (tt_register name suite f s).tt_head.length = s.tt_head.length + 1
    ∧ (tt_register name suite f s).tt_head[(s.tt_head.takeWhile
          (scans_past { test_function := f, name := name, suite := suite })).length]?
        = some { test_function := f, name := name, suite := suite }
    ∧ (tt_register name suite f s).tt_head.eraseIdx
          (s.tt_head.takeWhile
            (scans_past { test_function := f, name := name, suite := suite })).length
        = s.tt_head
    ∧ (∀ (regs : List tt_test) (s0 : State), s0.tt_head = [] →
        List.Perm (register_all regs s0).tt_head regs) := by
  have e : (tt_register name suite f s).tt_head
      = s.tt_head.takeWhile (scans_past { test_function := f, name := name, suite := suite })
        ++ { test_function := f, name := name, suite := suite }
        :: s.tt_head.dropWhile
            (scans_past { test_function := f, name := name, suite := suite }) :=
    link_take_drop _ _
  have htd := List.takeWhile_append_dropWhile
    (scans_past { test_function := f, name := name, suite := suite }) s.tt_head
  refine ⟨?_, ?_, ?_, ?_⟩
  · have h := (link_perm { test_function := f, name := name, suite := suite } s.tt_head).length_eq
    exact h
  · rw [e, List.getElem?_append_right (Nat.le_refl _)]
    simp
  · rw [e, List.eraseIdx_append_of_length_le (Nat.le_refl _)]
    simp [htd]
  · intro regs s0 h0
    rw [register_all_head, h0]
    simpa using foldl_link_perm regs []

theorem registration_keeps_entries_witness :
    State.initial.tt_head = []
    ∧ List.Perm (register_all [test_c, test_a, test_a, test_b] State.initial).tt_head
        [test_c, test_a, test_a, test_b] :=
  ⟨rfl,
   (registration_keeps_entries "t" "S1" .ret State.initial).2.2.2
     [test_c, test_a, test_a, test_b] State.initial rfl⟩

end TinyTest
